import Mathlib

/-!
Verification development for the fan-out generation orchestrator of the
getmycourse repository.  The definitions below are shallow embeddings of
the TypeScript source:

* the in-memory cancellation store of
  src/app/api/generate/CHC43121/route.ts (lines 9-38),
* the retry / timeout wrapper of the same route (lines 235-260),
* the response-parsing step (lines 300-322),
* the per-question task and the p-limit driven session as a small-step
  transition system over atomic JavaScript event-loop segments, and
* the answer-to-placeholder transforms of
  src/lib/curriculum-logic/CHC43121.ts and CHC33021.ts.

Machine integers do not occur; JavaScript strings are modelled as Lean
strings, JavaScript objects as association lists in insertion order, and
JSON.parse as an abstract parameter (only the brace-span extraction that
the route performs itself is modelled concretely).
-/

namespace GMC

/-! ### Cancellation registry (route.ts lines 9-38)

A GenRecord mirrors the record type of the route; the set of abort
controllers is modelled as a list of opaque handle identifiers.  The
module-scoped Map is an association list in insertion order with unique
keys (JavaScript Map semantics). -/

structure GenRecord where
  canceled : Bool
  controllers : List Nat
deriving DecidableEq, Repr

abbrev GenStore := List (String × GenRecord)

/-- Association-list access, first match (JavaScript object / Map keys are
unique, so first match is the match). -/
def getAssoc {β : Type} (l : List (String × β)) (k : String) : Option β :=
  match l with
  | [] => none
  | p :: rest => if p.1 == k then some p.2 else getAssoc rest k

/-- generationStore.get(id) -/
def getGen (st : GenStore) (id : String) : Option GenRecord :=
  getAssoc st id

/-- getOrCreateGen: returns existing record or appends a fresh one
(Map.set appends new keys in insertion order). -/
def getOrCreateGen (st : GenStore) (id : String) : GenStore :=
  match getGen st id with
  | some _ => st
  | none => st ++ [(id, ⟨false, []⟩)]

/-- registerController(id, ctrl): getOrCreateGen then add the handle. -/
def registerControllerStore (st : GenStore) (id : String) (ctrl : Nat) : GenStore :=
  (getOrCreateGen st id).map
    (fun p => if p.1 == id then (p.1, ⟨p.2.canceled, p.2.controllers ++ [ctrl]⟩) else p)

/-- cancelGeneration(id): no record means no-op; otherwise set canceled and
abort every tracked handle (the abort itself is an external side effect and
does not change the store). -/
def cancelGeneration (st : GenStore) (id : String) : GenStore :=
  match getGen st id with
  | none => st
  | some _ =>
      st.map (fun p => if p.1 == id then (p.1, ⟨true, p.2.controllers⟩) else p)

/-- isCanceled(id) -/
def isCanceledStore (st : GenStore) (id : String) : Bool :=
  match getGen st id with
  | some r => r.canceled
  | none => false

/-- clearGeneration(id): Map.delete. -/
def clearGeneration (st : GenStore) (id : String) : GenStore :=
  st.filter (fun p => !(p.1 == id))

/-! ### Error classification (route.ts lines 336-348)

A failed call carries an optional numeric status and a message; the route
treats it as a rate-limit failure when error.status === 429 or the message
matches /429/. -/

structure CallErr where
  status : Option Nat
  msg : String
deriving DecidableEq, Repr

/-- Exact (case-sensitive) leading-segment test on character lists. -/
def leadsEq : List Char → List Char → Bool
  | [], _ => true
  | _ :: _, [] => false
  | a :: as, b :: bs => a == b && leadsEq as bs

/-- Substring occurrence test (the /429/ regex test of the route). -/
def hasSub (pat : List Char) : List Char → Bool
  | [] => pat.isEmpty
  | c :: cs => leadsEq pat (c :: cs) || hasSub pat cs

def strContainsSub (s pat : String) : Bool :=
  hasSub pat.toList s.toList

/-- error?.status === 429 || /429/.test(String(error?.message || "")) -/
def isRateLimitErr (e : CallErr) : Bool :=
  e.status == some 429 || strContainsSub e.msg "429"

/-! ### Retry wrapper (route.ts lines 245-260)

retry(fn, retries = 3, delay = 2000): attempts are numbered from 1; every
attempt with number above 1 first emits a retry event; a failed attempt
that is not the last waits the fixed delay and continues; the last failed
attempt propagates its error.  The attempt function is modelled as a map
from attempt number to outcome. -/

inductive REv where
  | retryEvt (attempt : Nat)
  | wait (ms : Nat)
deriving DecidableEq, Repr

def retryGo {α : Type} (att : Nat → Except CallErr α) (delay : Nat) :
    Nat → Nat → List REv × Except CallErr α
  | _, 0 => ([], Except.error ⟨none, "Max retries reached"⟩)
  | attempt, r + 1 =>
      let pre : List REv := if 1 < attempt then [REv.retryEvt attempt] else []
      match att attempt with
      | Except.ok a => (pre, Except.ok a)
      | Except.error e =>
          if r = 0 then (pre, Except.error e)
          else
            let rest := retryGo att delay (attempt + 1) r
            (pre ++ [REv.wait delay] ++ rest.1, rest.2)

/-- retry with the route's defaults: retries = 3, delay = 2000 ms. -/
def retryDefault {α : Type} (att : Nat → Except CallErr α) : List REv × Except CallErr α :=
  retryGo att 2000 1 3

/-! ### Timeout wrapper (route.ts lines 235-243 and 262-274)

withTimeout races the call against a timer of ms milliseconds; if the call
takes longer, onTimeout (here: abort of the call controller) fires and the
attempt rejects.  A pending call is modelled by its duration and eventual
value; the wrapper returns (settle time, whether abort fired, outcome). -/

structure TimedPromise (α : Type) where
  dur : Nat
  val : Except CallErr α

def withTimeout {α : Type} (p : TimedPromise α) (ms : Nat) :
    Nat × Bool × Except CallErr α :=
  if ms < p.dur then
    (ms, true, Except.error ⟨none, "Timeout after " ++ toString ms ++ "ms"⟩)
  else
    (p.dur, false, p.val)

/-- The route wraps every attempt with a 120000 ms timeout (line 271). -/
def CALL_TIMEOUT_MS : Nat := 120000

def routeAttempt {α : Type} (p : TimedPromise α) : Nat × Bool × Except CallErr α :=
  withTimeout p CALL_TIMEOUT_MS

/-! ### Response parsing (route.ts lines 300-322)

The task locates the first opening brace and the last closing brace of the
response text and hands that substring to JSON.parse.  JSON.parse itself
is an external primitive; it is abstracted as a parameter
jp : String → Option (Option String) returning, on parse success, the
optional generatedAnswer field of the parsed object (none inside means the
field is absent or falsy is handled by truthyOr). -/

def idxOfChar (c : Char) : List Char → Option Nat
  | [] => none
  | a :: rest => if a = c then some 0 else (idxOfChar c rest).map (· + 1)

def lastIdxOfChar (c : Char) (cs : List Char) : Option Nat :=
  match idxOfChar c cs.reverse with
  | some k => some (cs.length - 1 - k)
  | none => none

/-- indexOf of the first opening brace, lastIndexOf of the last closing
brace, the jsonEnd > jsonStart guard, and substring(jsonStart, jsonEnd + 1),
exactly as in lines 307-310 of the route. -/
def extractJsonSpan (s : String) : Option String :=
  let cs := s.toList
  match idxOfChar '{' cs, lastIdxOfChar '}' cs with
  | some i, some j =>
      if i < j then some (String.mk ((cs.drop i).take (j + 1 - i))) else none
  | _, _ => none

def parseAi (jp : String → Option (Option String)) (text : String) :
    Option (Option String) :=
  (extractJsonSpan text).bind jp

/-- JavaScript (x || d) for string-valued x: empty string is falsy. -/
def truthyOr (f : Option String) (d : String) : String :=
  match f with
  | some s => if s == "" then d else s
  | none => d

/-! ### Global case-insensitive replacement

The transforms use String.prototype.replace with /gi regexes on literal
patterns: a single left-to-right, non-overlapping scan replacing every
case-insensitive occurrence of the pattern. -/

def charLowerEq (a b : Char) : Bool := a.toLower == b.toLower

/-- Case-insensitive leading-segment test. -/
def ciLeads : List Char → List Char → Bool
  | [], _ => true
  | _ :: _, [] => false
  | p :: ps, c :: cs => charLowerEq p c && ciLeads ps cs

/-- Left-to-right non-overlapping scan with explicit fuel; the fuel is the
length of the remaining input, which strictly decreases at every step, so
a fuel equal to the initial length never runs out. -/
def replCIFuel (pat rep : List Char) : Nat → List Char → List Char
  | 0, l => l
  | _ + 1, [] => []
  | fuel + 1, c :: cs =>
      if !pat.isEmpty && ciLeads pat (c :: cs) then
        rep ++ replCIFuel pat rep fuel (cs.drop (pat.length - 1))
      else
        c :: replCIFuel pat rep fuel cs

def replCI (pat rep l : List Char) : List Char :=
  replCIFuel pat rep l.length l

def replaceAllCI (s pat rep : String) : String :=
  String.mk (replCI pat.toList rep.toList s.toList)

/-! ### Answer transforms (curriculum-logic/CHC43121.ts lines 66-96 and
curriculum-logic/CHC33021.ts lines 90-133)

aiAnswers is the nested ResultMap; the master schema is consulted only for
its top-level unit codes.  JavaScript objects are association lists in
insertion order. -/

structure Q where
  question : String
  hasBench : Bool
deriving DecidableEq, Repr

abbrev Schema := List (String × List (String × Q))

structure Ai43Q where
  generatedAnswer : Option String
deriving DecidableEq, Repr

abbrev Ai43 := List (String × List (String × Ai43Q))

def lookupAi {β : Type} (ai : List (String × List (String × β))) (u k : String) :
    Option β :=
  match getAssoc ai u with
  | some unitData => getAssoc unitData k
  | none => none

/-- Loop body of transformAndFormatAnswersCHC43121 for one unit code and
one question index: a placeholder entry exactly when the AI answer map
holds a truthy generatedAnswer there; the value replaces every
case-insensitive occurrence of the two placeholder patterns with the
student name. -/
def entry43 (aiAnswers : Ai43) (studentName : String) (unitCode : String)
    (i : Nat) : Option (String × String) :=
  let questionKey := toString i
  let placeholderKey := unitCode ++ "_" ++ questionKey
  match lookupAi aiAnswers unitCode questionKey with
  | some qd =>
      match qd.generatedAnswer with
      | some ans =>
          if ans == "" then none
          else some (placeholderKey,
            replaceAllCI (replaceAllCI ans "(student name)" studentName)
              "{firstName}" studentName)
      | none => none
  | none => none

/-- transformAndFormatAnswersCHC43121: for every unit code of the master
schema and every question index 1..30, the loop body entry, and a final
Student_Name entry. -/
def transformAndFormatAnswersCHC43121 (aiAnswers : Ai43) (studentName : String)
    (masterSchema : Schema) : List (String × String) :=
  ((masterSchema.map Prod.fst).flatMap (fun unitCode =>
    (List.range' 1 30).filterMap (entry43 aiAnswers studentName unitCode)))
  ++ [("Student_Name", studentName)]

structure Bench33 where
  question : Option String
  performance_observed : Option String
  example_action : Option String
deriving DecidableEq, Repr

structure Ai33Q where
  evaluation : Option (List (String × Bench33))
  conclusion : Option String
deriving DecidableEq, Repr

abbrev Ai33 := List (String × List (String × Ai33Q))

/-- One benchmark block of the combined content (CHC33021.ts lines
111-120); only performance and action go through the (student name)
replacement, the question text does not. -/
def benchBlock33 (studentName : String) (p : String × Bench33) : String :=
  let question := truthyOr p.2.question ""
  let performance := replaceAllCI (truthyOr p.2.performance_observed "N/A")
    "(student name)" studentName
  let action := replaceAllCI (truthyOr p.2.example_action "N/A")
    "(student name)" studentName
  p.1 ++ ". " ++ question ++ "\n\n"
    ++ "Performance to Observe: " ++ performance ++ "\n"
    ++ "Example Action: " ++ action ++ "\n\n"

/-- Combined content for one answered CHC33021 question (lines 108-123). -/
def combined33 (studentName : String) (qd : Ai33Q) : String :=
  (String.join ((qd.evaluation.getD []).map (benchBlock33 studentName)))
    ++ "Conclusion\n"
    ++ replaceAllCI (truthyOr qd.conclusion "N/A") "(student name)" studentName

/-- Loop body of transformAndFormatAnswersCHC33021: an entry exactly when
the AI answer map holds an evaluation object there (JavaScript objects are
truthy even when empty). -/
def entry33 (aiAnswers : Ai33) (studentName : String) (unitCode : String)
    (i : Nat) : Option (String × String) :=
  let questionKey := toString i
  let placeholderKey := unitCode ++ "_" ++ questionKey
  match lookupAi aiAnswers unitCode questionKey with
  | some qd =>
      match qd.evaluation with
      | some _ => some (placeholderKey, combined33 studentName qd)
      | none => none
  | none => none

/-- transformAndFormatAnswersCHC33021: same skeleton as the CHC43121
transform with cap 20. -/
def transformAndFormatAnswersCHC33021 (aiAnswers : Ai33) (studentName : String)
    (masterSchema : Schema) : List (String × String) :=
  ((masterSchema.map Prod.fst).flatMap (fun unitCode =>
    (List.range' 1 20).filterMap (entry33 aiAnswers studentName unitCode)))
  ++ [("Student_Name", studentName)]

/-- Restriction of an answer map to the question keys a transform with cap
n actually inspects: the canonical decimal strings of 1..n. -/
def restrictAi {β : Type} (ai : List (String × List (String × β))) (cap : Nat) :
    List (String × List (String × β)) :=
  ai.map (fun p =>
    (p.1, p.2.filter (fun e => decide (e.1 ∈ (List.range' 1 cap).map toString))))

/-! ### The generation session (route.ts POST handler, lines 124-392)

JavaScript runs the handler single-threaded: code between two awaits is
atomic, and interleaving happens only at suspension points.  Each
per-question task has exactly two atomic segments:

* the start segment (lines 159-230): cancel check, processing event,
  benchMarkAns check, schema build, controller registration — everything
  up to the awaited retry-wrapped model call;
* the resume segment (lines 276-356): stream consumption with per-chunk
  cancel checks, token usage event, parsing, result recording and the
  completed event, or the catch block (quiet stop on cancellation, fatal
  handling of rate limits, non-fatal error otherwise) — everything after
  the call settles, up to task end.

The wrapped model call of a task is an oracle (fate): it either yields the
full response text or an error value.  p-limit admits a queued task only
while fewer than CONCURRENCY_LIMIT tasks are between admission and
completion; since segments are atomic, the occupied slots are exactly the
tasks inside the call phase.  Enqueuing on a closed SSE controller throws,
which the surrounding code swallows, so a segment that would emit on a
closed channel ends its task silently. -/

def CONCURRENCY_LIMIT : Nat := 10

structure Item where
  u : String
  q : String
  question : String
  hasBench : Bool
deriving DecidableEq, Repr

/-- Question enumeration (lines 155-158): for every top-level unit code,
every second-level key except the reserved assessment_guide key is one
work item, in iteration order. -/
def workItems (schema : Schema) : List Item :=
  schema.flatMap (fun p =>
    (p.2.filter (fun e => !(e.1 == "assessment_guide"))).map
      (fun e => ⟨p.1, e.1, e.2.question, e.2.hasBench⟩))

structure QResult where
  main_question : String
  generatedAnswer : String
deriving DecidableEq, Repr

inductive JEv where
  | processing (u q : String)
  | retryEv (u q : String) (attempt : Nat)
  | tokenUsage (u q : String)
  | completed (u q : String) (r : QResult)
  | errEv (u q msg : String) (fatal : Bool)
  | doneEv (results : List ((String × String) × QResult))
deriving DecidableEq, Repr

inductive CallOutcome where
  | ok (text : String)
  | errC (e : CallErr)
deriving DecidableEq, Repr

def isRateLimitedOutcome : CallOutcome → Bool
  | CallOutcome.errC e => isRateLimitErr e
  | CallOutcome.ok _ => false

structure ResolveOut where
  evs : List JEv
  canceled : Bool
  closed : Bool
  ins : Option ((String × String) × QResult)
deriving DecidableEq, Repr

/-- Resume segment of one task (lines 276-356).  On a canceled session the
per-chunk check or the catch block ends the task quietly; on a closed
channel the first enqueue throws and the task ends without events.
Otherwise: token usage, the empty-content error, the parse error, or the
recorded result with its completed event; a failed call is fatal exactly
when it is a rate-limit error (emit fatal error, close the channel, cancel
the session), and a non-fatal error otherwise. -/
def segResolve (jp : String → Option (Option String)) (it : Item)
    (o : CallOutcome) (canceled closed : Bool) : ResolveOut :=
  if canceled || closed then ⟨[], canceled, closed, none⟩
  else
    match o with
    | CallOutcome.ok text =>
        if text == "" then
          ⟨[JEv.tokenUsage it.u it.q,
            JEv.errEv it.u it.q "No valid response content from AI." false],
           canceled, closed, none⟩
        else
          match parseAi jp text with
          | some f =>
              let r : QResult := ⟨it.question, truthyOr f "No answer generated."⟩
              ⟨[JEv.tokenUsage it.u it.q, JEv.completed it.u it.q r],
               canceled, closed, some ((it.u, it.q), r)⟩
          | none =>
              ⟨[JEv.tokenUsage it.u it.q,
                JEv.errEv it.u it.q "Failed to parse JSON response from AI." false],
               canceled, closed, none⟩
    | CallOutcome.errC e =>
        if isRateLimitErr e then
          ⟨[JEv.errEv it.u it.q e.msg true], true, true, none⟩
        else
          ⟨[JEv.errEv it.u it.q
              ("API call failed: " ++ (if e.msg == "" then "Unknown error" else e.msg))
              false],
           canceled, closed, none⟩

structure Sess where
  items : List Item
  fate : Nat → CallOutcome
  jp : String → Option (Option String)
  climit : Nat

def defaultItem : Item := ⟨"", "", "", false⟩

def itemOf (S : Sess) (i : Nat) : Item := S.items.getD i defaultItem

inductive TPhase where
  | queued
  | inCall
  | finishedT
deriving DecidableEq, Repr

def inCallCount (ps : List TPhase) : Nat :=
  ps.countP (fun p => decide (p = TPhase.inCall))

structure St where
  phases : List TPhase
  canceled : Bool
  closed : Bool
  terminated : Bool
  evs : List JEv
  results : List ((String × String) × QResult)
deriving DecidableEq, Repr

def initSt (S : Sess) : St :=
  ⟨S.items.map (fun _ => TPhase.queued), false, false, false, [], []⟩

/-- Start segment of one task (lines 159-230).  A canceled session, or a
closed channel (whose enqueue throws out of the still-uncaught prefix of
the task), ends the task silently; otherwise processing is emitted, and a
question without benchMarkAns is skipped with a non-fatal error while a
valid one enters the call phase.  The dynamic schema of this curriculum is
non-null exactly when benchMarkAns is present, so no separate schema
failure branch exists. -/
def applyStart (S : Sess) (s : St) (i : Nat) : St :=
  let it := itemOf S i
  if s.canceled then { s with phases := s.phases.set i TPhase.finishedT }
  else if s.closed then { s with phases := s.phases.set i TPhase.finishedT }
  else if it.hasBench then
    { s with phases := s.phases.set i TPhase.inCall,
             evs := s.evs ++ [JEv.processing it.u it.q] }
  else
    { s with phases := s.phases.set i TPhase.finishedT,
             evs := s.evs ++ [JEv.processing it.u it.q,
                              JEv.errEv it.u it.q "Missing benchMarkAns." false] }

def applyResolve (S : Sess) (s : St) (i : Nat) : St :=
  let ro := segResolve S.jp (itemOf S i) (S.fate i) s.canceled s.closed
  { s with phases := s.phases.set i TPhase.finishedT,
           evs := s.evs ++ ro.evs,
           canceled := ro.canceled,
           closed := ro.closed,
           results := s.results ++ ro.ins.toList }

/-- End of the handler (lines 362-376): once every task has settled, a
canceled session closes silently, otherwise the done event with the
accumulated results is sent and the channel closes; either way the session
record is cleared. -/
def applyFinish (s : St) : St :=
  if s.canceled then { s with closed := true, terminated := true }
  else
    { s with evs := s.evs ++ [JEv.doneEv s.results],
             closed := true, terminated := true }

/-- One event-loop turn of the session.  admit is p-limit starting a queued
task while a slot is free; resolve is the settling of an in-flight model
call; extCancel is the DELETE endpoint or the client-disconnect listener
(only while the record exists, i.e. before teardown); finish is the
continuation of Promise.allSettled. -/
inductive Step (S : Sess) (ac : Bool) : St → St → Prop where
  | admitTask (s : St) (i : Nat) (hq : s.phases.get? i = some TPhase.queued)
      (hcap : inCallCount s.phases < S.climit) :
      Step S ac s (applyStart S s i)
  | resolve (s : St) (i : Nat) (hin : s.phases.get? i = some TPhase.inCall) :
      Step S ac s (applyResolve S s i)
  | extCancel (s : St) (hac : ac = true) (ht : s.terminated = false) :
      Step S ac s { s with canceled := true }
  | finish (s : St) (hall : ∀ p ∈ s.phases, p = TPhase.finishedT)
      (ht : s.terminated = false) :
      Step S ac s (applyFinish s)

inductive Reach (S : Sess) (ac : Bool) : St → Prop where
  | init : Reach S ac (initSt S)
  | step {s s' : St} : Reach S ac s → Step S ac s s' → Reach S ac s'

/-! ### Derived notions used by the statements -/

def itemKey (S : Sess) (i : Nat) : String × String :=
  match S.items.get? i with
  | some it => (it.u, it.q)
  | none => ("", "")

/-- The unique ResultMap entry a task contributes when it runs to success
in an uncanceled session, none when it lacks benchMarkAns, its call fails
or its response does not parse. -/
def taskResult (S : Sess) (i : Nat) : Option ((String × String) × QResult) :=
  match S.items.get? i with
  | none => none
  | some it =>
      if it.hasBench then (segResolve S.jp it (S.fate i) false false).ins
      else none

def isFatalEv : JEv → Bool
  | JEv.errEv _ _ _ true => true
  | _ => false

def isDoneEv : JEv → Bool
  | JEv.doneEv _ => true
  | _ => false

def countFatal (evs : List JEv) : Nat := evs.countP isFatalEv

def countDone (evs : List JEv) : Nat := evs.countP isDoneEv

def hasFatal (evs : List JEv) : Bool := evs.any isFatalEv

/-- Events of one task from the settling of the retry-wrapped call to the
end of the task, in an uncanceled session with an open channel: the retry
events the wrapper emitted, then the resume segment (lines 262-356). -/
def callPhaseEvents (jp : String → Option (Option String)) (it : Item)
    (att : Nat → Except CallErr String) : List JEv :=
  let rr := retryGo att 2000 1 3
  (rr.1.filterMap (fun e =>
    match e with
    | REv.retryEvt n => some (JEv.retryEv it.u it.q n)
    | REv.wait _ => none))
  ++ (segResolve jp it
        (match rr.2 with
         | Except.ok t => CallOutcome.ok t
         | Except.error e => CallOutcome.errC e) false false).evs

/-! ### Key characterization helpers for the transforms -/

/-- Whether the CHC43121 transform binds a placeholder for unit u, index i:
the answer map holds a truthy generatedAnswer there. -/
def answered43 (ai : Ai43) (u : String) (i : Nat) : Bool :=
  match lookupAi ai u (toString i) with
  | some qd =>
      match qd.generatedAnswer with
      | some ans => !(ans == "")
      | none => false
  | none => false

def expectedKeys43 (ai : Ai43) (ms : Schema) : List String :=
  (ms.map Prod.fst).flatMap (fun u =>
    ((List.range' 1 30).filter (fun i => answered43 ai u i)).map
      (fun i => u ++ "_" ++ toString i))

/-- Whether the CHC33021 transform binds a placeholder for unit u, index i:
the answer map holds an evaluation object there. -/
def answered33 (ai : Ai33) (u : String) (i : Nat) : Bool :=
  match lookupAi ai u (toString i) with
  | some qd => qd.evaluation.isSome
  | none => false

def expectedKeys33 (ai : Ai33) (ms : Schema) : List String :=
  (ms.map Prod.fst).flatMap (fun u =>
    ((List.range' 1 20).filter (fun i => answered33 ai u i)).map
      (fun i => u ++ "_" ++ toString i))

/-! ### The session invariant

Everything the claim theorems need, closed under Step and true at the
initial state. -/

structure Inv (S : Sess) (ac : Bool) (s : St) : Prop where
  hlen : s.phases.length = S.items.length
  hcap : inCallCount s.phases ≤ S.climit
  hbench : ∀ i, s.phases.get? i = some TPhase.inCall → (itemOf S i).hasBench = true
  hclosed : s.closed = true → s.canceled = true ∨ s.terminated = true
  htermFin : s.terminated = true → ∀ p ∈ s.phases, p = TPhase.finishedT
  htermClosed : s.terminated = true → s.closed = true
  htermDone : s.terminated = true → s.canceled = false →
      s.evs.getLast? = some (JEv.doneEv s.results)
  hdoneCount : countDone s.evs ≤ 1
  hdone : ∀ R, JEv.doneEv R ∈ s.evs → s.terminated = true ∧ s.canceled = false
  hfatalFlags : hasFatal s.evs = true → s.canceled = true ∧ s.closed = true
  hfatalCount : countFatal s.evs ≤ 1
  hfatalLast : hasFatal s.evs = true →
      ∃ u q m, s.evs.getLast? = some (JEv.errEv u q m true)
  hcancFatal : ac = false → s.canceled = true → hasFatal s.evs = true
  hfinRl : ac = false → ∀ i, s.phases.get? i = some TPhase.finishedT →
      (itemOf S i).hasBench = true → isRateLimitedOutcome (S.fate i) = true →
      hasFatal s.evs = true
  hres : s.canceled = false → ∀ e, e ∈ s.results ↔
      ∃ i, s.phases.get? i = some TPhase.finishedT ∧ taskResult S i = some e
  hresNodup : (S.items.map (fun it => (it.u, it.q))).Nodup → s.canceled = false →
      (s.results.map Prod.fst).Nodup

/-! ### Concrete sessions used as witnesses -/

def schemaW : Schema :=
  [("U1", [("1", ⟨"Q?", true⟩), ("assessment_guide", ⟨"g", false⟩)])]

/-- One-question session whose call succeeds with a parsable response. -/
def SW : Sess :=
  ⟨workItems schemaW, fun _ => CallOutcome.ok "{x}",
   fun _ => some (some "ANS"), CONCURRENCY_LIMIT⟩

/-- One-question session whose call fails with a 429 rate-limit error. -/
def SF : Sess :=
  ⟨workItems schemaW, fun _ => CallOutcome.errC ⟨some 429, "quota"⟩,
   fun _ => some (some "ANS"), CONCURRENCY_LIMIT⟩

def sWdone : St := applyFinish (applyResolve SW (applyStart SW (initSt SW) 0) 0)

def sFdone : St := applyFinish (applyResolve SF (applyStart SF (initSt SF) 0) 0)

/-! ## Theorems -/

/-! ### C8 — registry operations on absent sessions -/

/-- C8: Registry operations on absent sessions are no-ops: clearing a
second time leaves the store unchanged, cancel on an unknown id leaves the
store unchanged (and creates no record), and isCanceled on an unknown id
returns false. -/
theorem registry_absent_noop (st : GenStore) (id : String) :
    clearGeneration (clearGeneration st id) id = clearGeneration st id ∧
    (getGen st id = none → cancelGeneration st id = st) ∧
    (getGen st id = none → isCanceledStore st id = false) := by
  refine ⟨?_, ?_, ?_⟩
  · simp [clearGeneration, List.filter_filter]
  · intro h
    simp [cancelGeneration, h]
  · intro h
    simp [isCanceledStore, h]

/-- Witness for C8 at a concrete store and an absent id. -/
theorem registry_absent_noop_witness :
    clearGeneration (clearGeneration [("a", ⟨false, []⟩)] "b") "b" =
      clearGeneration [("a", ⟨false, []⟩)] "b" ∧
    cancelGeneration ([("a", ⟨false, []⟩)] : GenStore) "b" = [("a", ⟨false, []⟩)] ∧
    isCanceledStore [("a", ⟨false, []⟩)] "b" = false := by
  obtain ⟨h1, h2, h3⟩ := registry_absent_noop [("a", ⟨false, []⟩)] "b"
  exact ⟨h1, h2 (by decide), h3 (by decide)⟩

/-! ### C5 — per-attempt timeout -/

/-- C5: every model-call attempt is raced against a 120000 ms timer: the
attempt settles no later than the timeout; an attempt whose duration
exceeds the timeout has its abort controller fired and rejects (so it is a
failed attempt); an attempt within the timeout is untouched; and a
timed-out first attempt is followed by a second attempt through the retry
wrapper. -/
theorem per_attempt_timeout {α : Type} (p : TimedPromise α) :
    (routeAttempt p).1 ≤ CALL_TIMEOUT_MS ∧
    (CALL_TIMEOUT_MS < p.dur →
      (routeAttempt p).2.1 = true ∧ ∃ e, (routeAttempt p).2.2 = Except.error e) ∧
    (p.dur ≤ CALL_TIMEOUT_MS →
      (routeAttempt p).1 = p.dur ∧ (routeAttempt p).2 = (false, p.val)) ∧
    (∀ (ps : Nat → TimedPromise α) (t : α),
      CALL_TIMEOUT_MS < (ps 1).dur → (ps 2).dur ≤ CALL_TIMEOUT_MS →
      (ps 2).val = Except.ok t →
      (retryGo (fun n => (routeAttempt (ps n)).2.2) 2000 1 3).2 = Except.ok t) := by
  refine ⟨?_, ?_, ?_, ?_⟩
  · by_cases h : CALL_TIMEOUT_MS < p.dur
    · simp [routeAttempt, withTimeout, h]
    · simp [routeAttempt, withTimeout, h]
      omega
  · intro h
    simp [routeAttempt, withTimeout, h]
  · intro h
    have h' : ¬ CALL_TIMEOUT_MS < p.dur := by omega
    simp [routeAttempt, withTimeout, h']
  · intro ps t h1 h2 h3
    have ha1 : (routeAttempt (ps 1)).2.2 =
        Except.error ⟨none, "Timeout after " ++ toString CALL_TIMEOUT_MS ++ "ms"⟩ := by
      simp [routeAttempt, withTimeout, h1]
    have hn2 : ¬ CALL_TIMEOUT_MS < (ps 2).dur := by omega
    have ha2 : (routeAttempt (ps 2)).2.2 = Except.ok t := by
      simp [routeAttempt, withTimeout, hn2, h3]
    simp [retryGo, ha1, ha2]

/-- Witness for C5: a 200000 ms call times out, aborts, fails, and the
retry wrapper then succeeds on a fast second attempt. -/
theorem per_attempt_timeout_witness :
    (routeAttempt (⟨200000, Except.ok 5⟩ : TimedPromise Nat)).2.1 = true ∧
    (∃ e, (routeAttempt (⟨200000, Except.ok 5⟩ : TimedPromise Nat)).2.2 = Except.error e) ∧
    (retryGo
      (fun n => (routeAttempt
        (if n = 1 then (⟨200000, Except.ok 5⟩ : TimedPromise Nat) else ⟨10, Except.ok 7⟩)).2.2)
      2000 1 3).2 = Except.ok 7 := by
  obtain ⟨-, h2, -, h4⟩ :=
    per_attempt_timeout (⟨200000, Except.ok 5⟩ : TimedPromise Nat)
  obtain ⟨ha, hb⟩ := h2 (by decide)
  refine ⟨ha, hb, ?_⟩
  exact (per_attempt_timeout (⟨200000, Except.ok 5⟩ : TimedPromise Nat)).2.2.2
    (fun n => if n = 1 then ⟨200000, Except.ok 5⟩ else ⟨10, Except.ok 7⟩) 7
    (by decide) (by decide) rfl

/-! ### C4 — retry bookkeeping -/

/-- C4: the retry wrapper runs up to 3 attempts with a fixed 2000 ms wait
between attempts, every attempt numbered above 1 first emits a retry event
carrying its attempt number, a task whose first two attempts fail and
whose third succeeds emits exactly the retry events for attempts 2 and 3
followed by one completed event and no error event, and when all attempts
fail the last error propagates. -/
theorem retry_bookkeeping :
    (∀ (att : Nat → Except CallErr String) (e1 e2 : CallErr) (t : String),
      att 1 = Except.error e1 → att 2 = Except.error e2 → att 3 = Except.ok t →
      retryDefault att =
        ([REv.wait 2000, REv.retryEvt 2, REv.wait 2000, REv.retryEvt 3], Except.ok t)) ∧
    (∀ (att : Nat → Except CallErr String) (e1 e2 e3 : CallErr),
      att 1 = Except.error e1 → att 2 = Except.error e2 → att 3 = Except.error e3 →
      retryDefault att =
        ([REv.wait 2000, REv.retryEvt 2, REv.wait 2000, REv.retryEvt 3],
         Except.error e3)) ∧
    (∀ (jp : String → Option (Option String)) (it : Item)
       (att : Nat → Except CallErr String) (e1 e2 : CallErr) (t : String)
       (f : Option String),
      att 1 = Except.error e1 → att 2 = Except.error e2 → att 3 = Except.ok t →
      t ≠ "" → parseAi jp t = some f →
      callPhaseEvents jp it att =
        [JEv.retryEv it.u it.q 2, JEv.retryEv it.u it.q 3,
         JEv.tokenUsage it.u it.q,
         JEv.completed it.u it.q ⟨it.question, truthyOr f "No answer generated."⟩]) := by
  have main : ∀ (att : Nat → Except CallErr String) (e1 e2 : CallErr) (t : String),
      att 1 = Except.error e1 → att 2 = Except.error e2 → att 3 = Except.ok t →
      retryDefault att =
        ([REv.wait 2000, REv.retryEvt 2, REv.wait 2000, REv.retryEvt 3], Except.ok t) := by
    intro att e1 e2 t h1 h2 h3
    simp [retryDefault, retryGo, h1, h2, h3]
  refine ⟨main, ?_, ?_⟩
  · intro att e1 e2 e3 h1 h2 h3
    simp [retryDefault, retryGo, h1, h2, h3]
  · intro jp it att e1 e2 t f h1 h2 h3 ht hp
    have hr := main att e1 e2 t h1 h2 h3
    have htb : (t == "") = false := by
      simp [ht]
    simp only [callPhaseEvents, retryDefault] at hr ⊢
    rw [hr]
    simp [segResolve, htb, hp, List.filterMap]

/-- Witness for C4: concrete attempt functions realizing the
two-transient-failures-then-success and the all-fail scenarios. -/
theorem retry_bookkeeping_witness :
    retryDefault (fun n => if n ≤ 2 then Except.error ⟨none, "boom"⟩ else Except.ok "{x}") =
      ([REv.wait 2000, REv.retryEvt 2, REv.wait 2000, REv.retryEvt 3], Except.ok "{x}") ∧
    retryDefault (fun n => (Except.error ⟨none, toString n⟩ : Except CallErr String)) =
      ([REv.wait 2000, REv.retryEvt 2, REv.wait 2000, REv.retryEvt 3],
       Except.error ⟨none, "3"⟩) ∧
    callPhaseEvents (fun _ => some (some "ANS")) ⟨"U1", "1", "Q?", true⟩
      (fun n => if n ≤ 2 then Except.error ⟨none, "boom"⟩ else Except.ok "{x}") =
      [JEv.retryEv "U1" "1" 2, JEv.retryEv "U1" "1" 3, JEv.tokenUsage "U1" "1",
       JEv.completed "U1" "1" ⟨"Q?", "ANS"⟩] := by
  obtain ⟨m1, m2, m3⟩ := retry_bookkeeping
  refine ⟨m1 _ ⟨none, "boom"⟩ ⟨none, "boom"⟩ "{x}" rfl rfl rfl,
          m2 _ ⟨none, "1"⟩ ⟨none, "2"⟩ ⟨none, "3"⟩ rfl rfl rfl, ?_⟩
  exact m3 (fun _ => some (some "ANS")) ⟨"U1", "1", "Q?", true⟩ _
    ⟨none, "boom"⟩ ⟨none, "boom"⟩ "{x}" (some "ANS") rfl rfl rfl (by decide) (by decide)

/-! ### C7 — response-parse characterization -/

/-- C7: on a successful call in a live session, the task extracts the span
from the first opening brace to the last closing brace and parses it; it
emits a non-fatal error for the work item and records nothing exactly when
no such span exists or the span fails to parse, it emits the completed
event with the built result when parsing succeeds, and this path never
emits a fatal error. -/
theorem parse_error_characterization (jp : String → Option (Option String))
    (it : Item) (text : String) :
    ((∃ m, JEv.errEv it.u it.q m false ∈
        (segResolve jp it (CallOutcome.ok text) false false).evs) ↔
      parseAi jp text = none) ∧
    ((segResolve jp it (CallOutcome.ok text) false false).ins = none ↔
      parseAi jp text = none) ∧
    (∀ f, parseAi jp text = some f →
      (segResolve jp it (CallOutcome.ok text) false false).evs =
        [JEv.tokenUsage it.u it.q,
         JEv.completed it.u it.q ⟨it.question, truthyOr f "No answer generated."⟩] ∧
      (segResolve jp it (CallOutcome.ok text) false false).ins =
        some ((it.u, it.q), ⟨it.question, truthyOr f "No answer generated."⟩)) ∧
    (∀ u q m, JEv.errEv u q m true ∉
        (segResolve jp it (CallOutcome.ok text) false false).evs) := by
  by_cases he : text = ""
  · subst he
    have hnone : parseAi jp "" = none := rfl
    refine ⟨?_, ?_, ?_, ?_⟩
    · simp [segResolve, hnone]
    · simp [segResolve, hnone]
    · intro f hf
      rw [hnone] at hf
      cases hf
    · intro u q m
      simp [segResolve]
  · have htb : (text == "") = false := by simp [he]
    cases hp : parseAi jp text with
    | none =>
        refine ⟨?_, ?_, ?_, ?_⟩
        · simp [segResolve, htb, hp]
        · simp [segResolve, htb, hp]
        · intro f hf
          exact Option.noConfusion hf
        · intro u q m
          simp [segResolve, htb, hp]
    | some f =>
        refine ⟨?_, ?_, ?_, ?_⟩
        · simp [segResolve, htb, hp]
        · simp [segResolve, htb, hp]
        · intro f' hf'
          have hff : f = f' := Option.some.inj hf'
          subst hff
          simp [segResolve, htb, hp]
        · intro u q m
          simp [segResolve, htb, hp]

/-- Witness for C7 at a parsable and an unparsable concrete response. -/
theorem parse_error_characterization_witness :
    ((segResolve (fun _ => some (some "ANS")) ⟨"U1", "1", "Q?", true⟩
        (CallOutcome.ok "{x}") false false).evs =
      [JEv.tokenUsage "U1" "1", JEv.completed "U1" "1" ⟨"Q?", "ANS"⟩]) ∧
    ((∃ m, JEv.errEv "U1" "1" m false ∈
        (segResolve (fun _ => some (some "ANS")) ⟨"U1", "1", "Q?", true⟩
          (CallOutcome.ok "no braces here") false false).evs) ↔
      parseAi (fun _ => some (some "ANS")) "no braces here" = none) := by
  refine ⟨?_, ?_⟩
  · exact ((parse_error_characterization (fun _ => some (some "ANS"))
      ⟨"U1", "1", "Q?", true⟩ "{x}").2.2.1 (some "ANS") (by decide)).1
  · exact (parse_error_characterization (fun _ => some (some "ANS"))
      ⟨"U1", "1", "Q?", true⟩ "no braces here").1

/-! ### Helper lemmas for the transforms -/

theorem getAssoc_map {β γ : Type} (g : β → γ) (l : List (String × β)) (u : String) :
    getAssoc (l.map (fun p => (p.1, g p.2))) u = (getAssoc l u).map g := by
  induction l with
  | nil => rfl
  | cons p rest ih =>
      by_cases h : p.1 == u
      · simp [getAssoc, h]
      · simp [getAssoc, h, ih]

theorem getAssoc_filter_mem {β : Type} (l : List (String × β)) (A : List String)
    (k : String) (hk : k ∈ A) :
    getAssoc (l.filter (fun e => decide (e.1 ∈ A))) k = getAssoc l k := by
  induction l with
  | nil => rfl
  | cons e rest ih =>
      by_cases hek : e.1 == k
      · have he : e.1 = k := by
          exact eq_of_beq hek
        have : decide (e.1 ∈ A) = true := by
          subst he
          simpa using hk
        simp [List.filter_cons, this, getAssoc, hek]
      · by_cases hmem : decide (e.1 ∈ A) = true
        · simp [List.filter_cons, hmem, getAssoc, hek, ih]
        · simp [List.filter_cons, hmem, getAssoc, hek, ih]

theorem lookupAi_restrict {β : Type} (ai : List (String × List (String × β)))
    (cap : Nat) (u k : String) (hk : k ∈ (List.range' 1 cap).map toString) :
    lookupAi (restrictAi ai cap) u k = lookupAi ai u k := by
  unfold lookupAi restrictAi
  rw [getAssoc_map]
  cases h : getAssoc ai u with
  | none => rfl
  | some unitData =>
      simp only [Option.map_some]
      exact getAssoc_filter_mem unitData _ k hk

theorem flatMap_congr_mem {α β : Type} {f g : α → List β} (l : List α)
    (h : ∀ a ∈ l, f a = g a) : l.flatMap f = l.flatMap g := by
  induction l with
  | nil => rfl
  | cons a t ih =>
      simp only [List.flatMap_cons]
      rw [h a (List.mem_cons_self a t), ih (fun b hb => h b (List.mem_cons_of_mem a hb))]

theorem transform43_restrict (ai : Ai43) (nm : String) (ms : Schema) :
    transformAndFormatAnswersCHC43121 (restrictAi ai 30) nm ms =
      transformAndFormatAnswersCHC43121 ai nm ms := by
  unfold transformAndFormatAnswersCHC43121
  congr 1
  apply flatMap_congr_mem
  intro u _
  apply List.filterMap_congr
  intro i hi
  unfold entry43
  simp only [lookupAi_restrict ai 30 u (toString i) (List.mem_map_of_mem _ hi)]

theorem transform33_restrict (ai : Ai33) (nm : String) (ms : Schema) :
    transformAndFormatAnswersCHC33021 (restrictAi ai 20) nm ms =
      transformAndFormatAnswersCHC33021 ai nm ms := by
  unfold transformAndFormatAnswersCHC33021
  congr 1
  apply flatMap_congr_mem
  intro u _
  apply List.filterMap_congr
  intro i hi
  unfold entry33
  simp only [lookupAi_restrict ai 20 u (toString i) (List.mem_map_of_mem _ hi)]

/-! ### C10 — the transforms inspect only capped numeric question keys -/

/-- C10: the transforms inspect only question keys that are the decimal
strings 1..cap (30 for the CHC43121 transform, 20 for the CHC33021 one):
restricting the answer map to those keys never changes the output, so any
result stored under a non-numeric key or an index above the cap is
silently omitted. -/
theorem transforms_cap_only (ai : Ai43) (ai33 : Ai33) (nm : String) (ms : Schema) :
    (transformAndFormatAnswersCHC43121 (restrictAi ai 30) nm ms =
      transformAndFormatAnswersCHC43121 ai nm ms) ∧
    (transformAndFormatAnswersCHC33021 (restrictAi ai33 20) nm ms =
      transformAndFormatAnswersCHC33021 ai33 nm ms) ∧
    (∀ qd qd' : Ai43Q,
      transformAndFormatAnswersCHC43121 [("U1", [("abc", qd), ("31", qd')])] nm ms =
        transformAndFormatAnswersCHC43121 [("U1", [])] nm ms) := by
  refine ⟨transform43_restrict ai nm ms, transform33_restrict ai33 nm ms, ?_⟩
  intro qd qd'
  have h1 := transform43_restrict [("U1", [("abc", qd), ("31", qd')])] nm ms
  have hd1 : decide (("abc" : String) ∈ (List.range' 1 30).map toString) = false := by
    decide
  have hd2 : decide (("31" : String) ∈ (List.range' 1 30).map toString) = false := by
    decide
  have hre : restrictAi ([("U1", [("abc", qd), ("31", qd')])] : Ai43) 30 = [("U1", [])] := by
    simp [restrictAi, List.filter_cons, hd1, hd2]
  rw [hre] at h1
  exact h1.symm

/-! ### C9 — the flat placeholder map handed to the templating step -/

/-- C9 counterexample: with a master schema holding unit U1 question 1 but
no AI answer for it, the CHC43121 transform binds no U1_1 placeholder key,
although question 1 of U1 is a question of the master schema; and the
CHC33021 transform leaves the firstName placeholder pattern in a bound
answer string unreplaced. -/
theorem placeholder_map_counterexample :
    (("U1", "1") ∈ (workItems [("U1", [("1", ⟨"Q?", true⟩)])]).map
        (fun it => (it.u, it.q)) ∧
      "U1_1" ∉ (transformAndFormatAnswersCHC43121 [] "Sam"
          [("U1", [("1", ⟨"Q?", true⟩)])]).map Prod.fst) ∧
    (("U1_1",
        "1. q\n\nPerformance to Observe: {firstName} did X\nExample Action: act\n\nConclusion\nc") ∈
        transformAndFormatAnswersCHC33021
          [("U1", [("1", ⟨some [("1", ⟨some "q", some "{firstName} did X", some "act"⟩)],
                          some "c"⟩)])]
          "Sam" [("U1", [("1", ⟨"Q?", true⟩)])] ∧
      strContainsSub
        "1. q\n\nPerformance to Observe: {firstName} did X\nExample Action: act\n\nConclusion\nc"
        "{firstName}" = true) := by
  refine ⟨⟨?_, ?_⟩, ?_, ?_⟩ <;> decide

theorem entry43_none {ai : Ai43} {u : String} {i : Nat} (nm : String)
    (h : answered43 ai u i = false) : entry43 ai nm u i = none := by
  unfold answered43 at h
  cases hl : lookupAi ai u (toString i) with
  | none => simp [entry43, hl]
  | some qd =>
      cases hg : qd.generatedAnswer with
      | none => simp [entry43, hl, hg]
      | some ans =>
          simp only [hl, hg] at h
          simp at h
          simp [entry43, hl, hg, h]

theorem entry43_some {ai : Ai43} {u : String} {i : Nat} (nm : String)
    (h : answered43 ai u i = true) :
    ∃ v, entry43 ai nm u i = some (u ++ "_" ++ toString i, v) := by
  unfold answered43 at h
  cases hl : lookupAi ai u (toString i) with
  | none =>
      simp only [hl] at h
      cases h
  | some qd =>
      cases hg : qd.generatedAnswer with
      | none =>
          simp only [hl, hg] at h
          cases h
      | some ans =>
          simp only [hl, hg] at h
          simp at h
          refine ⟨replaceAllCI (replaceAllCI ans "(student name)" nm) "{firstName}" nm, ?_⟩
          simp [entry43, hl, hg, h]

theorem entry33_none {ai : Ai33} {u : String} {i : Nat} (nm : String)
    (h : answered33 ai u i = false) : entry33 ai nm u i = none := by
  unfold answered33 at h
  cases hl : lookupAi ai u (toString i) with
  | none => simp [entry33, hl]
  | some qd =>
      cases hg : qd.evaluation with
      | none => simp [entry33, hl, hg]
      | some ev =>
          simp only [hl, hg] at h
          simp at h

theorem entry33_some {ai : Ai33} {u : String} {i : Nat} (nm : String)
    (h : answered33 ai u i = true) :
    entry33 ai nm u i = some (u ++ "_" ++ toString i,
      combined33 nm ((lookupAi ai u (toString i)).getD ⟨none, none⟩)) := by
  unfold answered33 at h
  cases hl : lookupAi ai u (toString i) with
  | none =>
      simp only [hl] at h
      cases h
  | some qd =>
      cases hg : qd.evaluation with
      | none =>
          simp only [hl, hg] at h
          simp at h
      | some ev => simp [entry33, hl, hg]


theorem map_fst_filterMap_entry43 (ai : Ai43) (nm u : String) (l : List Nat) :
    ((l.filterMap (entry43 ai nm u)).map Prod.fst)
      = ((l.filter (fun i => answered43 ai u i)).map
          (fun i => u ++ "_" ++ toString i)) := by
  induction l with
  | nil => rfl
  | cons a t ih =>
      rw [List.filterMap_cons, List.filter_cons]
      cases h : answered43 ai u a with
      | false =>
          rw [entry43_none nm h]
          simpa [h] using ih
      | true =>
          obtain ⟨v, hv⟩ := entry43_some nm h
          rw [hv]
          simp [h, ih]

theorem map_fst_filterMap_entry33 (ai : Ai33) (nm u : String) (l : List Nat) :
    ((l.filterMap (entry33 ai nm u)).map Prod.fst)
      = ((l.filter (fun i => answered33 ai u i)).map
          (fun i => u ++ "_" ++ toString i)) := by
  induction l with
  | nil => rfl
  | cons a t ih =>
      rw [List.filterMap_cons, List.filter_cons]
      cases h : answered33 ai u a with
      | false =>
          rw [entry33_none nm h]
          simpa [h] using ih
      | true =>
          rw [entry33_some nm h]
          simp [h, ih]

/-- C9 amended: the flat map binds exactly one string per answered
question — unit code from the master schema, decimal index within the cap,
truthy payload present — under the key unitCode_questionIndex in schema
order, plus the Student_Name key bound to the student's name; unanswered
master-schema questions get no key.  The CHC43121 transform replaces every
case-insensitive occurrence of the two patterns (student name) and the
braced firstName placeholder with the student's name; the CHC33021
transform applies only the (student name) replacement. -/
theorem placeholder_map_amended (ai : Ai43) (ai33 : Ai33) (nm : String) (ms : Schema) :
    (transformAndFormatAnswersCHC43121 ai nm ms).map Prod.fst =
      expectedKeys43 ai ms ++ ["Student_Name"] ∧
    ("Student_Name", nm) ∈ transformAndFormatAnswersCHC43121 ai nm ms ∧
    (∀ u i qd ans, u ∈ ms.map Prod.fst → i ∈ List.range' 1 30 →
      lookupAi ai u (toString i) = some qd → qd.generatedAnswer = some ans →
      ans ≠ "" →
      (u ++ "_" ++ toString i,
        replaceAllCI (replaceAllCI ans "(student name)" nm) "{firstName}" nm) ∈
        transformAndFormatAnswersCHC43121 ai nm ms) ∧
    (transformAndFormatAnswersCHC33021 ai33 nm ms).map Prod.fst =
      expectedKeys33 ai33 ms ++ ["Student_Name"] ∧
    ("Student_Name", nm) ∈ transformAndFormatAnswersCHC33021 ai33 nm ms ∧
    (∀ u i qd, u ∈ ms.map Prod.fst → i ∈ List.range' 1 20 →
      lookupAi ai33 u (toString i) = some qd → qd.evaluation.isSome →
      (u ++ "_" ++ toString i, combined33 nm qd) ∈
        transformAndFormatAnswersCHC33021 ai33 nm ms) := by
  refine ⟨?_, ?_, ?_, ?_, ?_, ?_⟩
  · unfold transformAndFormatAnswersCHC43121 expectedKeys43
    rw [List.map_append, List.map_flatMap]
    congr 1
    apply flatMap_congr_mem
    intro u _
    exact map_fst_filterMap_entry43 ai nm u _
  · unfold transformAndFormatAnswersCHC43121
    exact List.mem_append_right _ (List.mem_singleton.mpr rfl)
  · intro u i qd ans hu hi hl hg hne
    unfold transformAndFormatAnswersCHC43121
    apply List.mem_append_left
    rw [List.mem_flatMap]
    refine ⟨u, hu, ?_⟩
    rw [List.mem_filterMap]
    refine ⟨i, hi, ?_⟩
    unfold entry43
    have hb : (ans == "") = false := by simp [hne]
    simp [hl, hg, hb]
  · unfold transformAndFormatAnswersCHC33021 expectedKeys33
    rw [List.map_append, List.map_flatMap]
    congr 1
    apply flatMap_congr_mem
    intro u _
    exact map_fst_filterMap_entry33 ai33 nm u _
  · unfold transformAndFormatAnswersCHC33021
    exact List.mem_append_right _ (List.mem_singleton.mpr rfl)
  · intro u i qd hu hi hl hev
    unfold transformAndFormatAnswersCHC33021
    apply List.mem_append_left
    rw [List.mem_flatMap]
    refine ⟨u, hu, ?_⟩
    rw [List.mem_filterMap]
    refine ⟨i, hi, ?_⟩
    unfold entry33
    cases hg : qd.evaluation with
    | none =>
        rw [hg] at hev
        cases hev
    | some ev => simp [hl, hg]

/-- Witness for the amended C9 at a concrete answer map, student name and
master schema. -/
theorem placeholder_map_amended_witness :
    (transformAndFormatAnswersCHC43121 [("U1", [("1", ⟨some "hi (student name)"⟩)])]
        "Sam" [("U1", [("1", ⟨"Q?", true⟩)])]).map Prod.fst =
      expectedKeys43 [("U1", [("1", ⟨some "hi (student name)"⟩)])]
        [("U1", [("1", ⟨"Q?", true⟩)])] ++ ["Student_Name"] ∧
    ("U1_1", replaceAllCI (replaceAllCI "hi (student name)" "(student name)" "Sam")
        "{firstName}" "Sam") ∈
      transformAndFormatAnswersCHC43121 [("U1", [("1", ⟨some "hi (student name)"⟩)])]
        "Sam" [("U1", [("1", ⟨"Q?", true⟩)])] := by
  obtain ⟨h1, _, h3, _, _, _⟩ :=
    placeholder_map_amended [("U1", [("1", ⟨some "hi (student name)"⟩)])] []
      "Sam" [("U1", [("1", ⟨"Q?", true⟩)])]
  refine ⟨h1, ?_⟩
  exact h3 "U1" 1 ⟨some "hi (student name)"⟩ "hi (student name)"
    (by decide) (by decide) (by decide) rfl (by decide)

/-! ### Helper lemmas for the session transition system -/

theorem countP_set_eq {α : Type} (f : α → Bool) :
    ∀ (l : List α) (i : Nat) (a : α), i < l.length →
    (l.set i a).countP f + (if f (l.getD i a) then 1 else 0)
      = l.countP f + (if f a then 1 else 0) := by
  intro l
  induction l with
  | nil =>
      intro i a h
      simp at h
  | cons b bs ih =>
      intro i a h
      cases i with
      | zero =>
          simp only [List.set, List.countP_cons, List.getD_cons_zero]
          omega
      | succ n =>
          simp only [List.set, List.countP_cons, List.getD_cons_succ]
          have hlt : n < bs.length := by
            simpa using h
          have := ih n a hlt
          omega

theorem itemOf_get? {S : Sess} {i : Nat} (h : i < S.items.length) :
    S.items.get? i = some (itemOf S i) := by
  rw [List.get?_eq_get h]
  unfold itemOf
  rw [List.getD_eq_get? S.items i defaultItem, List.get?_eq_get h]
  rfl

theorem segResolve_ins_shape {jp : String → Option (Option String)} {it : Item}
    {o : CallOutcome} {e : (String × String) × QResult}
    (h : (segResolve jp it o false false).ins = some e) : e.1 = (it.u, it.q) := by
  unfold segResolve at h
  cases o with
  | ok text =>
      by_cases ht : (text == "") = true
      · simp [ht] at h
      · simp only [Bool.false_or, Bool.or_self, if_neg, ht] at h
        cases hp : parseAi jp text with
        | none => simp [hp] at h
        | some f =>
            simp [hp] at h
            rw [← h]
  | errC e' =>
      by_cases hrl : isRateLimitErr e' = true
      · simp [hrl] at h
      · simp [hrl] at h

theorem taskResult_shape {S : Sess} {i : Nat} {e : (String × String) × QResult}
    (h : taskResult S i = some e) :
    ∃ it, S.items.get? i = some it ∧ e.1 = (it.u, it.q) := by
  unfold taskResult at h
  cases hl : S.items.get? i with
  | none =>
      rw [hl] at h
      cases h
  | some it =>
      rw [hl] at h
      dsimp only at h
      by_cases hb : it.hasBench = true
      · rw [if_pos hb] at h
        exact ⟨it, rfl, segResolve_ins_shape h⟩
      · rw [if_neg hb] at h
        cases h


theorem nodup_keys_ne {S : Sess}
    (hnd : (S.items.map (fun it => (it.u, it.q))).Nodup)
    {i j : Nat} {it it' : Item}
    (hi : S.items.get? i = some it) (hj : S.items.get? j = some it')
    (hne : i ≠ j) : (it.u, it.q) ≠ (it'.u, it'.q) := by
  obtain ⟨hi', hgi⟩ := List.get?_eq_some.mp hi
  obtain ⟨hj', hgj⟩ := List.get?_eq_some.mp hj
  intro hkey
  have hmi : ((S.items.map (fun it => (it.u, it.q))).get
      ⟨i, by simpa using hi'⟩) = (it.u, it.q) := by
    rw [List.get_map]
    rw [hgi]
  have hmj : ((S.items.map (fun it => (it.u, it.q))).get
      ⟨j, by simpa using hj'⟩) = (it'.u, it'.q) := by
    rw [List.get_map]
    rw [hgj]
  have heq : ((S.items.map (fun it => (it.u, it.q))).get ⟨i, by simpa using hi'⟩)
      = ((S.items.map (fun it => (it.u, it.q))).get ⟨j, by simpa using hj'⟩) := by
    rw [hmi, hmj, hkey]
  have := (List.Nodup.get_inj_iff hnd).mp heq
  apply hne
  simpa using this

theorem step_canceled_mono {S : Sess} {ac : Bool} {s s' : St}
    (st : Step S ac s s') (hc : s.canceled = true) : s'.canceled = true := by
  cases st with
  | admitTask i hq hcap =>
      unfold applyStart
      simp [hc]
  | resolve i hin =>
      unfold applyResolve
      simp [segResolve, hc]
  | extCancel hac ht => rfl
  | finish hall ht =>
      unfold applyFinish
      simp [hc]

theorem step_silent {S : Sess} {ac : Bool} {s s' : St}
    (hc : s.canceled = true) (st : Step S ac s s') : s'.evs = s.evs := by
  cases st with
  | admitTask i hq hcap =>
      unfold applyStart
      simp [hc]
  | resolve i hin =>
      unfold applyResolve
      simp [segResolve, hc]
  | extCancel hac ht => rfl
  | finish hall ht =>
      unfold applyFinish
      simp [hc]

theorem hasFatal_append (l₁ l₂ : List JEv) :
    hasFatal (l₁ ++ l₂) = (hasFatal l₁ || hasFatal l₂) :=
  List.any_append

theorem countDone_append (l₁ l₂ : List JEv) :
    countDone (l₁ ++ l₂) = countDone l₁ + countDone l₂ :=
  List.countP_append _ _ _

theorem countFatal_append (l₁ l₂ : List JEv) :
    countFatal (l₁ ++ l₂) = countFatal l₁ + countFatal l₂ :=
  List.countP_append _ _ _

@[simp] theorem isFatalEv_processing (u q : String) :
    isFatalEv (JEv.processing u q) = false := rfl

@[simp] theorem isFatalEv_retryEv (u q : String) (n : Nat) :
    isFatalEv (JEv.retryEv u q n) = false := rfl

@[simp] theorem isFatalEv_tokenUsage (u q : String) :
    isFatalEv (JEv.tokenUsage u q) = false := rfl

@[simp] theorem isFatalEv_completed (u q : String) (r : QResult) :
    isFatalEv (JEv.completed u q r) = false := rfl

@[simp] theorem isFatalEv_errEv (u q m : String) (b : Bool) :
    isFatalEv (JEv.errEv u q m b) = b := by
  cases b <;> rfl

@[simp] theorem isFatalEv_doneEv (R : List ((String × String) × QResult)) :
    isFatalEv (JEv.doneEv R) = false := rfl

@[simp] theorem isDoneEv_processing (u q : String) :
    isDoneEv (JEv.processing u q) = false := rfl

@[simp] theorem isDoneEv_retryEv (u q : String) (n : Nat) :
    isDoneEv (JEv.retryEv u q n) = false := rfl

@[simp] theorem isDoneEv_tokenUsage (u q : String) :
    isDoneEv (JEv.tokenUsage u q) = false := rfl

@[simp] theorem isDoneEv_completed (u q : String) (r : QResult) :
    isDoneEv (JEv.completed u q r) = false := rfl

@[simp] theorem isDoneEv_errEv (u q m : String) (b : Bool) :
    isDoneEv (JEv.errEv u q m b) = false := rfl

@[simp] theorem isDoneEv_doneEv (R : List ((String × String) × QResult)) :
    isDoneEv (JEv.doneEv R) = true := rfl

@[simp] theorem hasFatal_nil : hasFatal [] = false := rfl

@[simp] theorem hasFatal_cons (e : JEv) (l : List JEv) :
    hasFatal (e :: l) = (isFatalEv e || hasFatal l) := by
  simp [hasFatal, List.any_cons]

@[simp] theorem countDone_nil : countDone [] = 0 := rfl

@[simp] theorem countDone_cons (e : JEv) (l : List JEv) :
    countDone (e :: l) = countDone l + (if isDoneEv e = true then 1 else 0) :=
  List.countP_cons _ _ _

@[simp] theorem countFatal_nil : countFatal [] = 0 := rfl

@[simp] theorem countFatal_cons (e : JEv) (l : List JEv) :
    countFatal (e :: l) = countFatal l + (if isFatalEv e = true then 1 else 0) :=
  List.countP_cons _ _ _

theorem hasFatal_append_false {l₁ l₂ : List JEv} (h2 : hasFatal l₂ = false) :
    hasFatal (l₁ ++ l₂) = hasFatal l₁ := by
  rw [hasFatal_append, h2, Bool.or_false]

theorem countDone_append_zero {l₁ l₂ : List JEv} (h2 : countDone l₂ = 0) :
    countDone (l₁ ++ l₂) = countDone l₁ := by
  rw [countDone_append, h2]
  omega

theorem countFatal_append_zero {l₁ l₂ : List JEv} (h2 : countFatal l₂ = 0) :
    countFatal (l₁ ++ l₂) = countFatal l₁ := by
  rw [countFatal_append, h2]
  omega

theorem get?_set_self' {α : Type} {l : List α} {i : Nat} (a : α) (h : i < l.length) :
    (l.set i a).get? i = some a := by
  rw [List.get?_set, if_pos rfl, List.get?_eq_get h]
  rfl

theorem get?_set_ne' {α : Type} (l : List α) (a : α) {i j : Nat} (h : i ≠ j) :
    (l.set i a).get? j = l.get? j := by
  rw [List.get?_set, if_neg h]

theorem inCallCount_set_finished {ps : List TPhase} {i : Nat} {p0 : TPhase}
    (hq : ps.get? i = some p0) (hne : p0 ≠ TPhase.inCall) :
    inCallCount (ps.set i TPhase.finishedT) = inCallCount ps := by
  have hilen : i < ps.length := (List.get?_eq_some.mp hq).1
  have h := countP_set_eq (fun p => decide (p = TPhase.inCall)) ps i TPhase.finishedT hilen
  have hg : ps.getD i TPhase.finishedT = p0 := by
    rw [List.getD_eq_get?, hq]
    rfl
  rw [hg] at h
  simp only [inCallCount]
  simp [hne] at h
  omega

theorem inCallCount_set_inCall {ps : List TPhase} {i : Nat}
    (hq : ps.get? i = some TPhase.queued) :
    inCallCount (ps.set i TPhase.inCall) = inCallCount ps + 1 := by
  have hilen : i < ps.length := (List.get?_eq_some.mp hq).1
  have h := countP_set_eq (fun p => decide (p = TPhase.inCall)) ps i TPhase.inCall hilen
  have hg : ps.getD i TPhase.inCall = TPhase.queued := by
    rw [List.getD_eq_get?, hq]
    rfl
  rw [hg] at h
  simp only [inCallCount]
  simp at h
  omega

theorem inCallCount_resolve {ps : List TPhase} {i : Nat}
    (hq : ps.get? i = some TPhase.inCall) :
    inCallCount (ps.set i TPhase.finishedT) + 1 = inCallCount ps := by
  have hilen : i < ps.length := (List.get?_eq_some.mp hq).1
  have h := countP_set_eq (fun p => decide (p = TPhase.inCall)) ps i TPhase.finishedT hilen
  have hg : ps.getD i TPhase.finishedT = TPhase.inCall := by
    rw [List.getD_eq_get?, hq]
    rfl
  rw [hg] at h
  simp only [inCallCount]
  simp at h
  omega

theorem not_finished_term_absurd {S : Sess} {ac : Bool} {s : St} (inv : Inv S ac s)
    (ht : s.terminated = true) {i : Nat} {p0 : TPhase}
    (hq : s.phases.get? i = some p0) (hne : p0 ≠ TPhase.finishedT) : False :=
  hne (inv.htermFin ht p0 (List.get?_mem hq))

theorem inv_step_admit {S : Sess} {ac : Bool} {s : St} (inv : Inv S ac s) (i : Nat)
    (hq : s.phases.get? i = some TPhase.queued)
    (hcap : inCallCount s.phases < S.climit) : Inv S ac (applyStart S s i) := by
  have hilen : i < s.phases.length := (List.get?_eq_some.mp hq).1
  have hiS : i < S.items.length := by
    rw [← inv.hlen]
    exact hilen
  cases hcanc : s.canceled with
  | true =>
      have hs' : applyStart S s i = { s with phases := s.phases.set i TPhase.finishedT } := by
        unfold applyStart
        simp [hcanc]
      rw [hs']
      refine ⟨?_, ?_, ?_, ?_, ?_, ?_, ?_, ?_, ?_, ?_, ?_, ?_, ?_, ?_, ?_, ?_⟩
      · simpa [List.length_set] using inv.hlen
      · simpa [inCallCount_set_finished hq (by simp)] using inv.hcap
      · intro j hj
        by_cases hji : i = j
        · subst hji
          rw [get?_set_self' _ hilen] at hj
          cases hj
        · rw [get?_set_ne' _ _ hji] at hj
          exact inv.hbench j hj
      · exact inv.hclosed
      · intro ht
        exact (not_finished_term_absurd inv ht hq (by simp)).elim
      · exact inv.htermClosed
      · intro ht
        exact (not_finished_term_absurd inv ht hq (by simp)).elim
      · exact inv.hdoneCount
      · exact inv.hdone
      · exact inv.hfatalFlags
      · exact inv.hfatalCount
      · exact inv.hfatalLast
      · exact inv.hcancFatal
      · intro hac j hjfin hb hrl
        by_cases hji : i = j
        · subst hji
          exact inv.hcancFatal hac hcanc
        · rw [get?_set_ne' _ _ hji] at hjfin
          exact inv.hfinRl hac j hjfin hb hrl
      · intro hc
        rw [hcanc] at hc
        cases hc
      · intro _ hc
        rw [hcanc] at hc
        cases hc
  | false =>
      cases hclosedb : s.closed with
      | true =>
          rcases inv.hclosed hclosedb with hcc | htt
          · rw [hcanc] at hcc
            cases hcc
          · exact (not_finished_term_absurd inv htt hq (by simp)).elim
      | false =>
          cases hbench : (itemOf S i).hasBench with
          | true =>
              have hs' : applyStart S s i =
                  { s with phases := s.phases.set i TPhase.inCall,
                           evs := s.evs ++ [JEv.processing (itemOf S i).u (itemOf S i).q] } := by
                unfold applyStart
                simp [hcanc, hclosedb, hbench]
              rw [hs']
              refine ⟨?_, ?_, ?_, ?_, ?_, ?_, ?_, ?_, ?_, ?_, ?_, ?_, ?_, ?_, ?_, ?_⟩
              · simpa [List.length_set] using inv.hlen
              · simp only [inCallCount_set_inCall hq]
                omega
              · intro j hj
                by_cases hji : i = j
                · subst hji
                  exact hbench
                · rw [get?_set_ne' _ _ hji] at hj
                  exact inv.hbench j hj
              · intro h
                rw [hclosedb] at h
                cases h
              · intro ht
                exact (not_finished_term_absurd inv ht hq (by simp)).elim
              · intro ht
                exact (not_finished_term_absurd inv ht hq (by simp)).elim
              · intro ht
                exact (not_finished_term_absurd inv ht hq (by simp)).elim
              · rw [countDone_append]
                simpa using inv.hdoneCount
              · intro R hr
                rcases List.mem_append.mp hr with h | h
                · exact inv.hdone R h
                · simp at h
              · intro h
                rw [hasFatal_append] at h
                simp at h
                have := (inv.hfatalFlags h).1
                rw [hcanc] at this
                cases this
              · rw [countFatal_append]
                simpa using inv.hfatalCount
              · intro h
                rw [hasFatal_append] at h
                simp at h
                have := (inv.hfatalFlags h).1
                rw [hcanc] at this
                cases this
              · intro hac hc
                rw [hcanc] at hc
                cases hc
              · intro hac j hjfin hb hrl
                by_cases hji : i = j
                · subst hji
                  rw [get?_set_self' _ hilen] at hjfin
                  cases hjfin
                · rw [get?_set_ne' _ _ hji] at hjfin
                  rw [hasFatal_append]
                  simpa using inv.hfinRl hac j hjfin hb hrl
              · intro hc e
                constructor
                · intro he
                  obtain ⟨j, hjfin, htr⟩ := (inv.hres hcanc e).mp he
                  have hji : i ≠ j := by
                    intro hh
                    subst hh
                    rw [hq] at hjfin
                    cases hjfin
                  exact ⟨j, by rw [get?_set_ne' _ _ hji]; exact hjfin, htr⟩
                · rintro ⟨j, hjfin, htr⟩
                  have hji : i ≠ j := by
                    intro hh
                    subst hh
                    rw [get?_set_self' _ hilen] at hjfin
                    cases hjfin
                  rw [get?_set_ne' _ _ hji] at hjfin
                  exact (inv.hres hcanc e).mpr ⟨j, hjfin, htr⟩
              · intro hnd hc
                exact inv.hresNodup hnd hcanc
          | false =>
              have hs' : applyStart S s i =
                  { s with phases := s.phases.set i TPhase.finishedT,
                           evs := s.evs ++
                             [JEv.processing (itemOf S i).u (itemOf S i).q,
                              JEv.errEv (itemOf S i).u (itemOf S i).q
                                "Missing benchMarkAns." false] } := by
                unfold applyStart
                simp [hcanc, hclosedb, hbench]
              rw [hs']
              refine ⟨?_, ?_, ?_, ?_, ?_, ?_, ?_, ?_, ?_, ?_, ?_, ?_, ?_, ?_, ?_, ?_⟩
              · simpa [List.length_set] using inv.hlen
              · simpa [inCallCount_set_finished hq (by simp)] using inv.hcap
              · intro j hj
                by_cases hji : i = j
                · subst hji
                  rw [get?_set_self' _ hilen] at hj
                  cases hj
                · rw [get?_set_ne' _ _ hji] at hj
                  exact inv.hbench j hj
              · intro h
                rw [hclosedb] at h
                cases h
              · intro ht
                exact (not_finished_term_absurd inv ht hq (by simp)).elim
              · intro ht
                exact (not_finished_term_absurd inv ht hq (by simp)).elim
              · intro ht
                exact (not_finished_term_absurd inv ht hq (by simp)).elim
              · rw [countDone_append]
                simpa using inv.hdoneCount
              · intro R hr
                rcases List.mem_append.mp hr with h | h
                · exact inv.hdone R h
                · simp at h
              · intro h
                rw [hasFatal_append] at h
                simp at h
                have := (inv.hfatalFlags h).1
                rw [hcanc] at this
                cases this
              · rw [countFatal_append]
                simpa using inv.hfatalCount
              · intro h
                rw [hasFatal_append] at h
                simp at h
                have := (inv.hfatalFlags h).1
                rw [hcanc] at this
                cases this
              · intro hac hc
                rw [hcanc] at hc
                cases hc
              · intro hac j hjfin hb hrl
                by_cases hji : i = j
                · subst hji
                  rw [hb] at hbench
                  cases hbench
                · rw [get?_set_ne' _ _ hji] at hjfin
                  rw [hasFatal_append]
                  simpa using inv.hfinRl hac j hjfin hb hrl
              · intro hc e
                constructor
                · intro he
                  obtain ⟨j, hjfin, htr⟩ := (inv.hres hcanc e).mp he
                  have hji : i ≠ j := by
                    intro hh
                    subst hh
                    rw [hq] at hjfin
                    cases hjfin
                  exact ⟨j, by rw [get?_set_ne' _ _ hji]; exact hjfin, htr⟩
                · rintro ⟨j, hjfin, htr⟩
                  by_cases hji : i = j
                  · subst hji
                    have : taskResult S i = none := by
                      unfold taskResult
                      rw [itemOf_get? hiS]
                      simp [hbench]
                    rw [this] at htr
                    cases htr
                  · rw [get?_set_ne' _ _ hji] at hjfin
                    exact (inv.hres hcanc e).mpr ⟨j, hjfin, htr⟩
              · intro hnd hc
                exact inv.hresNodup hnd hcanc

theorem countFatal_eq_zero_of {l : List JEv} (h : hasFatal l = false) :
    countFatal l = 0 := by
  rw [hasFatal, List.any_eq_false] at h
  rw [countFatal, List.countP_eq_zero]
  exact h

theorem not_done_mem {l : List JEv} (h : countDone l = 0)
    (R : List ((String × String) × QResult)) : JEv.doneEv R ∉ l := by
  rw [countDone, List.countP_eq_zero] at h
  intro hm
  exact (h _ hm) (by simp)

theorem taskResult_eq_ins {S : Sess} {i : Nat} (hiS : i < S.items.length)
    (hb : (itemOf S i).hasBench = true) :
    taskResult S i = (segResolve S.jp (itemOf S i) (S.fate i) false false).ins := by
  unfold taskResult
  rw [itemOf_get? hiS]
  dsimp only
  rw [if_pos hb]

/-- Resolve preservation, shared by every non-fatal no-result outcome
(empty content, parse failure, non-rate-limit call failure). -/
theorem inv_resolve_skip {S : Sess} {ac : Bool} {s : St} (inv : Inv S ac s) {i : Nat}
    (hin : s.phases.get? i = some TPhase.inCall)
    (hcanc : s.canceled = false) (hclosedb : s.closed = false)
    {l : List JEv} (hl_fatal : hasFatal l = false) (hl_done : countDone l = 0)
    (hins : (segResolve S.jp (itemOf S i) (S.fate i) false false).ins = none)
    (hnotrl : isRateLimitedOutcome (S.fate i) = false)
    (hs' : applyResolve S s i =
      { s with
          phases := s.phases.set i TPhase.finishedT,
          evs := s.evs ++ l }) : Inv S ac (applyResolve S s i) := by
  have hilen : i < s.phases.length := (List.get?_eq_some.mp hin).1
  have hiS : i < S.items.length := by
    rw [← inv.hlen]
    exact hilen
  have hben : (itemOf S i).hasBench = true := inv.hbench i hin
  rw [hs']
  refine ⟨?_, ?_, ?_, ?_, ?_, ?_, ?_, ?_, ?_, ?_, ?_, ?_, ?_, ?_, ?_, ?_⟩
  · simpa [List.length_set] using inv.hlen
  · show inCallCount (s.phases.set i TPhase.finishedT) ≤ S.climit
    have := inCallCount_resolve hin
    have := inv.hcap
    omega
  · intro j hj
    by_cases hji : i = j
    · subst hji
      rw [get?_set_self' _ hilen] at hj
      cases hj
    · rw [get?_set_ne' _ _ hji] at hj
      exact inv.hbench j hj
  · intro h
    rw [hclosedb] at h
    cases h
  · intro ht
    exact (not_finished_term_absurd inv ht hin (by simp)).elim
  · intro ht
    exact (not_finished_term_absurd inv ht hin (by simp)).elim
  · intro ht
    exact (not_finished_term_absurd inv ht hin (by simp)).elim
  · rw [countDone_append_zero hl_done]
    exact inv.hdoneCount
  · intro R hr
    rcases List.mem_append.mp hr with h | h
    · exact inv.hdone R h
    · exact ((not_done_mem hl_done R) h).elim
  · intro h
    rw [hasFatal_append_false hl_fatal] at h
    have := (inv.hfatalFlags h).1
    rw [hcanc] at this
    cases this
  · rw [countFatal_append_zero (countFatal_eq_zero_of hl_fatal)]
    exact inv.hfatalCount
  · intro h
    rw [hasFatal_append_false hl_fatal] at h
    have := (inv.hfatalFlags h).1
    rw [hcanc] at this
    cases this
  · intro hac hcc
    rw [hcanc] at hcc
    cases hcc
  · intro hac j hjfin hb hrl
    by_cases hji : i = j
    · subst hji
      rw [hrl] at hnotrl
      cases hnotrl
    · rw [get?_set_ne' _ _ hji] at hjfin
      rw [hasFatal_append_false hl_fatal]
      exact inv.hfinRl hac j hjfin hb hrl
  · intro hc e
    constructor
    · intro he
      obtain ⟨j, hjfin, htr⟩ := (inv.hres hcanc e).mp he
      have hji : i ≠ j := by
        intro hh
        subst hh
        rw [hin] at hjfin
        cases hjfin
      exact ⟨j, by rw [get?_set_ne' _ _ hji]; exact hjfin, htr⟩
    · rintro ⟨j, hjfin, htr⟩
      by_cases hji : i = j
      · subst hji
        rw [taskResult_eq_ins hiS hben, hins] at htr
        cases htr
      · rw [get?_set_ne' _ _ hji] at hjfin
        exact (inv.hres hcanc e).mpr ⟨j, hjfin, htr⟩
  · intro hnd hc
    exact inv.hresNodup hnd hcanc

/-- Resolve preservation for a successful parse: the task appends its
result and emits the completed event. -/
theorem inv_resolve_complete {S : Sess} {ac : Bool} {s : St} (inv : Inv S ac s) {i : Nat}
    (hin : s.phases.get? i = some TPhase.inCall)
    (hcanc : s.canceled = false) (hclosedb : s.closed = false)
    {r : QResult}
    (hins : (segResolve S.jp (itemOf S i) (S.fate i) false false).ins =
      some (((itemOf S i).u, (itemOf S i).q), r))
    (hnotrl : isRateLimitedOutcome (S.fate i) = false)
    (hs' : applyResolve S s i =
      { s with
          phases := s.phases.set i TPhase.finishedT,
          evs := s.evs ++ [JEv.tokenUsage (itemOf S i).u (itemOf S i).q,
            JEv.completed (itemOf S i).u (itemOf S i).q r],
          results := s.results ++ [(((itemOf S i).u, (itemOf S i).q), r)] }) :
    Inv S ac (applyResolve S s i) := by
  have hilen : i < s.phases.length := (List.get?_eq_some.mp hin).1
  have hiS : i < S.items.length := by
    rw [← inv.hlen]
    exact hilen
  have hben : (itemOf S i).hasBench = true := inv.hbench i hin
  rw [hs']
  refine ⟨?_, ?_, ?_, ?_, ?_, ?_, ?_, ?_, ?_, ?_, ?_, ?_, ?_, ?_, ?_, ?_⟩
  · simpa [List.length_set] using inv.hlen
  · show inCallCount (s.phases.set i TPhase.finishedT) ≤ S.climit
    have := inCallCount_resolve hin
    have := inv.hcap
    omega
  · intro j hj
    by_cases hji : i = j
    · subst hji
      rw [get?_set_self' _ hilen] at hj
      cases hj
    · rw [get?_set_ne' _ _ hji] at hj
      exact inv.hbench j hj
  · intro h
    rw [hclosedb] at h
    cases h
  · intro ht
    exact (not_finished_term_absurd inv ht hin (by simp)).elim
  · intro ht
    exact (not_finished_term_absurd inv ht hin (by simp)).elim
  · intro ht
    exact (not_finished_term_absurd inv ht hin (by simp)).elim
  · rw [countDone_append_zero (by simp)]
    exact inv.hdoneCount
  · intro R hr
    rcases List.mem_append.mp hr with h | h
    · exact inv.hdone R h
    · simp at h
  · intro h
    rw [hasFatal_append_false (by simp)] at h
    have := (inv.hfatalFlags h).1
    rw [hcanc] at this
    cases this
  · rw [countFatal_append_zero (by simp)]
    exact inv.hfatalCount
  · intro h
    rw [hasFatal_append_false (by simp)] at h
    have := (inv.hfatalFlags h).1
    rw [hcanc] at this
    cases this
  · intro hac hcc
    rw [hcanc] at hcc
    cases hcc
  · intro hac j hjfin hb hrl
    by_cases hji : i = j
    · subst hji
      rw [hrl] at hnotrl
      cases hnotrl
    · rw [get?_set_ne' _ _ hji] at hjfin
      rw [hasFatal_append_false (by simp)]
      exact inv.hfinRl hac j hjfin hb hrl
  · intro hc e
    constructor
    · intro he
      rcases List.mem_append.mp he with h | h
      · obtain ⟨j, hjfin, htr⟩ := (inv.hres hcanc e).mp h
        have hji : i ≠ j := by
          intro hh
          subst hh
          rw [hin] at hjfin
          cases hjfin
        exact ⟨j, by rw [get?_set_ne' _ _ hji]; exact hjfin, htr⟩
      · rw [List.mem_singleton] at h
        subst h
        refine ⟨i, get?_set_self' _ hilen, ?_⟩
        rw [taskResult_eq_ins hiS hben, hins]
    · rintro ⟨j, hjfin, htr⟩
      by_cases hji : i = j
      · subst hji
        rw [taskResult_eq_ins hiS hben, hins] at htr
        have he : (((itemOf S i).u, (itemOf S i).q), r) = e := Option.some.inj htr
        apply List.mem_append_right
        rw [List.mem_singleton]
        exact he.symm
      · rw [get?_set_ne' _ _ hji] at hjfin
        exact List.mem_append_left _ ((inv.hres hcanc e).mpr ⟨j, hjfin, htr⟩)
  · intro hnd hc
    rw [List.map_append]
    apply List.Nodup.append (inv.hresNodup hnd hcanc) (by simp)
    rw [List.map_singleton, List.disjoint_singleton]
    intro hmem
    rw [List.mem_map] at hmem
    obtain ⟨e', he', hfst⟩ := hmem
    obtain ⟨j, hjfin, htr⟩ := (inv.hres hcanc e').mp he'
    obtain ⟨itj, hgj, hkeyj⟩ := taskResult_shape htr
    have hji : i ≠ j := by
      intro hh
      subst hh
      rw [hin] at hjfin
      cases hjfin
    have hkeyne := nodup_keys_ne hnd (itemOf_get? hiS) hgj hji
    apply hkeyne
    rw [← hkeyj, hfst]

/-- Resolve preservation for a rate-limit failure: the fatal error event,
channel close and session cancel. -/
theorem inv_resolve_fatal {S : Sess} {ac : Bool} {s : St} (inv : Inv S ac s) {i : Nat}
    (hin : s.phases.get? i = some TPhase.inCall)
    (hcanc : s.canceled = false) (_hclosedb : s.closed = false)
    {m : String}
    (hs' : applyResolve S s i =
      { s with
          phases := s.phases.set i TPhase.finishedT,
          evs := s.evs ++ [JEv.errEv (itemOf S i).u (itemOf S i).q m true],
          canceled := true,
          closed := true }) :
    Inv S ac (applyResolve S s i) := by
  have hilen : i < s.phases.length := (List.get?_eq_some.mp hin).1
  have h0 : hasFatal s.evs = false := by
    cases hfe : hasFatal s.evs with
    | false => rfl
    | true =>
        have := (inv.hfatalFlags hfe).1
        rw [hcanc] at this
        cases this
  rw [hs']
  refine ⟨?_, ?_, ?_, ?_, ?_, ?_, ?_, ?_, ?_, ?_, ?_, ?_, ?_, ?_, ?_, ?_⟩
  · simpa [List.length_set] using inv.hlen
  · show inCallCount (s.phases.set i TPhase.finishedT) ≤ S.climit
    have := inCallCount_resolve hin
    have := inv.hcap
    omega
  · intro j hj
    by_cases hji : i = j
    · subst hji
      rw [get?_set_self' _ hilen] at hj
      cases hj
    · rw [get?_set_ne' _ _ hji] at hj
      exact inv.hbench j hj
  · intro _
    left
    rfl
  · intro ht
    exact (not_finished_term_absurd inv ht hin (by simp)).elim
  · intro _
    rfl
  · intro _ hcf
    cases hcf
  · rw [countDone_append_zero (by simp)]
    exact inv.hdoneCount
  · intro R hr
    rcases List.mem_append.mp hr with h | h
    · exact ((not_finished_term_absurd inv (inv.hdone R h).1 hin (by simp)).elim)
    · simp at h
  · intro _
    exact ⟨rfl, rfl⟩
  · rw [countFatal_append, countFatal_eq_zero_of h0]
    simp
  · intro _
    refine ⟨(itemOf S i).u, (itemOf S i).q, m, ?_⟩
    rw [List.getLast?_concat]
  · intro hac _
    rw [hasFatal_append]
    simp
  · intro hac j hjfin hb hrl
    rw [hasFatal_append]
    simp
  · intro hc
    cases hc
  · intro _ hc
    cases hc

/-- Resolve preservation when the session is already canceled: the task
ends quietly. -/
theorem inv_resolve_silent {S : Sess} {ac : Bool} {s : St} (inv : Inv S ac s) {i : Nat}
    (hin : s.phases.get? i = some TPhase.inCall) (hcanc : s.canceled = true)
    (hs' : applyResolve S s i =
      { s with phases := s.phases.set i TPhase.finishedT }) :
    Inv S ac (applyResolve S s i) := by
  have hilen : i < s.phases.length := (List.get?_eq_some.mp hin).1
  rw [hs']
  refine ⟨?_, ?_, ?_, ?_, ?_, ?_, ?_, ?_, ?_, ?_, ?_, ?_, ?_, ?_, ?_, ?_⟩
  · simpa [List.length_set] using inv.hlen
  · show inCallCount (s.phases.set i TPhase.finishedT) ≤ S.climit
    have := inCallCount_resolve hin
    have := inv.hcap
    omega
  · intro j hj
    by_cases hji : i = j
    · subst hji
      rw [get?_set_self' _ hilen] at hj
      cases hj
    · rw [get?_set_ne' _ _ hji] at hj
      exact inv.hbench j hj
  · exact inv.hclosed
  · intro ht
    exact (not_finished_term_absurd inv ht hin (by simp)).elim
  · exact inv.htermClosed
  · exact inv.htermDone
  · exact inv.hdoneCount
  · exact inv.hdone
  · exact inv.hfatalFlags
  · exact inv.hfatalCount
  · exact inv.hfatalLast
  · exact inv.hcancFatal
  · intro hac j hjfin hb hrl
    by_cases hji : i = j
    · subst hji
      exact inv.hcancFatal hac hcanc
    · rw [get?_set_ne' _ _ hji] at hjfin
      exact inv.hfinRl hac j hjfin hb hrl
  · intro hc
    rw [hcanc] at hc
    cases hc
  · intro _ hc
    rw [hcanc] at hc
    cases hc

theorem inv_step_resolve {S : Sess} {ac : Bool} {s : St} (inv : Inv S ac s) (i : Nat)
    (hin : s.phases.get? i = some TPhase.inCall) : Inv S ac (applyResolve S s i) := by
  cases hcanc : s.canceled with
  | true =>
      apply inv_resolve_silent inv hin hcanc
      unfold applyResolve segResolve
      simp [hcanc]
  | false =>
      cases hclosedb : s.closed with
      | true =>
          rcases inv.hclosed hclosedb with hcc | htt
          · rw [hcanc] at hcc
            cases hcc
          · exact (not_finished_term_absurd inv htt hin (by simp)).elim
      | false =>
          cases hf : S.fate i with
          | ok t =>
              cases htxt : (t == "") with
              | true =>
                  have hs' : applyResolve S s i =
                      { s with
                          phases := s.phases.set i TPhase.finishedT,
                          evs := s.evs ++
                            [JEv.tokenUsage (itemOf S i).u (itemOf S i).q,
                             JEv.errEv (itemOf S i).u (itemOf S i).q
                               "No valid response content from AI." false] } := by
                    unfold applyResolve segResolve
                    simp [hcanc, hclosedb, hf, htxt]
                  exact inv_resolve_skip inv hin hcanc hclosedb (by simp) (by simp)
                    (by unfold segResolve; simp [hf, htxt]) (by rw [hf]; rfl) hs'
              | false =>
                  cases hp : parseAi S.jp t with
                  | none =>
                      have hs' : applyResolve S s i =
                          { s with
                              phases := s.phases.set i TPhase.finishedT,
                              evs := s.evs ++
                                [JEv.tokenUsage (itemOf S i).u (itemOf S i).q,
                                 JEv.errEv (itemOf S i).u (itemOf S i).q
                                   "Failed to parse JSON response from AI." false] } := by
                        unfold applyResolve segResolve
                        simp [hcanc, hclosedb, hf, htxt, hp]
                      exact inv_resolve_skip inv hin hcanc hclosedb (by simp) (by simp)
                        (by unfold segResolve; simp [hf, htxt, hp]) (by rw [hf]; rfl) hs'
                  | some f =>
                      have hs' : applyResolve S s i =
                          { s with
                              phases := s.phases.set i TPhase.finishedT,
                              evs := s.evs ++
                                [JEv.tokenUsage (itemOf S i).u (itemOf S i).q,
                                 JEv.completed (itemOf S i).u (itemOf S i).q
                                   ⟨(itemOf S i).question,
                                    truthyOr f "No answer generated."⟩],
                              results := s.results ++
                                [(((itemOf S i).u, (itemOf S i).q),
                                  ⟨(itemOf S i).question,
                                   truthyOr f "No answer generated."⟩)] } := by
                        unfold applyResolve segResolve
                        simp [hcanc, hclosedb, hf, htxt, hp]
                      exact inv_resolve_complete inv hin hcanc hclosedb
                        (by unfold segResolve; simp [hf, htxt, hp]) (by rw [hf]; rfl) hs'
          | errC e' =>
              cases hrl : isRateLimitErr e' with
              | true =>
                  have hs' : applyResolve S s i =
                      { s with
                          phases := s.phases.set i TPhase.finishedT,
                          evs := s.evs ++
                            [JEv.errEv (itemOf S i).u (itemOf S i).q e'.msg true],
                          canceled := true,
                          closed := true } := by
                    unfold applyResolve segResolve
                    simp [hcanc, hclosedb, hf, hrl]
                  exact inv_resolve_fatal inv hin hcanc hclosedb hs'
              | false =>
                  have hs' : applyResolve S s i =
                      { s with
                          phases := s.phases.set i TPhase.finishedT,
                          evs := s.evs ++
                            [JEv.errEv (itemOf S i).u (itemOf S i).q
                              ("API call failed: " ++
                                (if e'.msg == "" then "Unknown error" else e'.msg))
                              false] } := by
                    unfold applyResolve segResolve
                    simp [hcanc, hclosedb, hf, hrl]
                  exact inv_resolve_skip inv hin hcanc hclosedb (by simp) (by simp)
                    (by unfold segResolve; simp [hf, hrl])
                    (by rw [hf]; simp [isRateLimitedOutcome, hrl]) hs'

theorem inv_step_extCancel {S : Sess} {ac : Bool} {s : St} (inv : Inv S ac s)
    (hac : ac = true) (ht : s.terminated = false) :
    Inv S ac { s with canceled := true } := by
  refine ⟨?_, ?_, ?_, ?_, ?_, ?_, ?_, ?_, ?_, ?_, ?_, ?_, ?_, ?_, ?_, ?_⟩
  · exact inv.hlen
  · exact inv.hcap
  · exact inv.hbench
  · intro _
    left
    rfl
  · intro htt
    rw [ht] at htt
    cases htt
  · intro htt
    rw [ht] at htt
    cases htt
  · intro htt
    rw [ht] at htt
    cases htt
  · exact inv.hdoneCount
  · intro R hr
    have := (inv.hdone R hr).1
    rw [ht] at this
    cases this
  · intro h
    exact ⟨rfl, (inv.hfatalFlags h).2⟩
  · exact inv.hfatalCount
  · exact inv.hfatalLast
  · intro hacf
    rw [hacf] at hac
    cases hac
  · intro hacf
    rw [hacf] at hac
    cases hac
  · intro hc
    cases hc
  · intro _ hc
    cases hc

theorem inv_step_finish {S : Sess} {ac : Bool} {s : St} (inv : Inv S ac s)
    (hall : ∀ p ∈ s.phases, p = TPhase.finishedT) (ht : s.terminated = false) :
    Inv S ac (applyFinish s) := by
  cases hcanc : s.canceled with
  | true =>
      have hs' : applyFinish s = { s with closed := true, terminated := true } := by
        unfold applyFinish
        simp [hcanc]
      rw [hs']
      refine ⟨?_, ?_, ?_, ?_, ?_, ?_, ?_, ?_, ?_, ?_, ?_, ?_, ?_, ?_, ?_, ?_⟩
      · exact inv.hlen
      · exact inv.hcap
      · exact inv.hbench
      · intro _
        left
        exact hcanc
      · intro _
        exact hall
      · intro _
        rfl
      · intro _ hcf
        rw [hcanc] at hcf
        cases hcf
      · exact inv.hdoneCount
      · intro R hr
        have := (inv.hdone R hr).1
        rw [ht] at this
        cases this
      · intro h
        exact ⟨(inv.hfatalFlags h).1, rfl⟩
      · exact inv.hfatalCount
      · exact inv.hfatalLast
      · intro hacf _
        exact inv.hcancFatal hacf hcanc
      · intro hacf j hjfin hb hrl
        exact inv.hfinRl hacf j hjfin hb hrl
      · intro hc
        rw [hcanc] at hc
        cases hc
      · intro _ hc
        rw [hcanc] at hc
        cases hc
  | false =>
      have hs' : applyFinish s =
          { s with
              evs := s.evs ++ [JEv.doneEv s.results],
              closed := true,
              terminated := true } := by
        unfold applyFinish
        simp [hcanc]
      rw [hs']
      have h0 : countDone s.evs = 0 := by
        rw [countDone, List.countP_eq_zero]
        intro a ha hda
        cases a with
        | doneEv R =>
            have := (inv.hdone R ha).1
            rw [ht] at this
            cases this
        | processing u q => simp at hda
        | retryEv u q n => simp at hda
        | tokenUsage u q => simp at hda
        | completed u q r => simp at hda
        | errEv u q m b => simp at hda
      refine ⟨?_, ?_, ?_, ?_, ?_, ?_, ?_, ?_, ?_, ?_, ?_, ?_, ?_, ?_, ?_, ?_⟩
      · exact inv.hlen
      · exact inv.hcap
      · exact inv.hbench
      · intro _
        right
        rfl
      · intro _
        exact hall
      · intro _
        rfl
      · intro _ _
        exact List.getLast?_concat _
      · rw [countDone_append, h0]
        simp
      · intro R hr
        rcases List.mem_append.mp hr with h | h
        · have := (inv.hdone R h).1
          rw [ht] at this
          cases this
        · rw [List.mem_singleton] at h
          exact ⟨rfl, hcanc⟩
      · intro h
        rw [hasFatal_append_false (by simp)] at h
        have := (inv.hfatalFlags h).1
        rw [hcanc] at this
        cases this
      · rw [countFatal_append_zero (by simp)]
        exact inv.hfatalCount
      · intro h
        rw [hasFatal_append_false (by simp)] at h
        have := (inv.hfatalFlags h).1
        rw [hcanc] at this
        cases this
      · intro hacf hcc
        rw [hcanc] at hcc
        cases hcc
      · intro hacf j hjfin hb hrl
        rw [hasFatal_append_false (by simp)]
        exact inv.hfinRl hacf j hjfin hb hrl
      · intro hc e
        exact inv.hres hcanc e
      · intro hnd hc
        exact inv.hresNodup hnd hcanc

theorem inv_init (S : Sess) (ac : Bool) : Inv S ac (initSt S) := by
  refine ⟨?_, ?_, ?_, ?_, ?_, ?_, ?_, ?_, ?_, ?_, ?_, ?_, ?_, ?_, ?_, ?_⟩
  · simp [initSt]
  · show inCallCount (S.items.map fun _ => TPhase.queued) ≤ S.climit
    have h0 : inCallCount (S.items.map fun _ => TPhase.queued) = 0 := by
      rw [inCallCount, List.countP_eq_zero]
      intro a ha
      rw [List.mem_map] at ha
      obtain ⟨w, -, hw⟩ := ha
      rw [← hw]
      simp
    omega
  · intro j hj
    rw [show (initSt S).phases = S.items.map fun _ => TPhase.queued from rfl,
        List.get?_map] at hj
    cases hg : S.items.get? j with
    | none =>
        rw [hg] at hj
        cases hj
    | some it =>
        rw [hg] at hj
        simp at hj
  · intro h
    cases h
  · intro h
    cases h
  · intro h
    cases h
  · intro h
    cases h
  · simp [initSt]
  · intro R hr
    simp [initSt] at hr
  · intro h
    cases h
  · simp [initSt]
  · intro h
    cases h
  · intro _ hcc
    cases hcc
  · intro hacf j hjfin hb hrl
    rw [show (initSt S).phases = S.items.map fun _ => TPhase.queued from rfl,
        List.get?_map] at hjfin
    cases hg : S.items.get? j with
    | none =>
        rw [hg] at hjfin
        cases hjfin
    | some it =>
        rw [hg] at hjfin
        simp at hjfin
  · intro hc e
    constructor
    · intro he
      simp [initSt] at he
    · rintro ⟨j, hjfin, htr⟩
      rw [show (initSt S).phases = S.items.map fun _ => TPhase.queued from rfl,
          List.get?_map] at hjfin
      cases hg : S.items.get? j with
      | none =>
          rw [hg] at hjfin
          cases hjfin
      | some it =>
          rw [hg] at hjfin
          simp at hjfin
  · intro hnd hc
    simp [initSt]

theorem inv_step {S : Sess} {ac : Bool} {s s' : St} (inv : Inv S ac s)
    (st : Step S ac s s') : Inv S ac s' := by
  cases st with
  | admitTask i hq hcap => exact inv_step_admit inv i hq hcap
  | resolve i hin => exact inv_step_resolve inv i hin
  | extCancel hac ht => exact inv_step_extCancel inv hac ht
  | finish hall ht => exact inv_step_finish inv hall ht

theorem reach_inv {S : Sess} {ac : Bool} {s : St} (h : Reach S ac s) :
    Inv S ac s := by
  induction h with
  | init => exact inv_init S ac
  | step h1 h2 ih => exact inv_step ih h2

theorem mem_of_getLast?_eq {α : Type} {l : List α} {a : α}
    (h : l.getLast? = some a) : a ∈ l := by
  have hm : a ∈ l.getLast? := Option.mem_def.mpr h
  obtain ⟨hne, heq⟩ := List.mem_getLast?_eq_getLast hm
  rw [heq]
  exact List.getLast_mem hne

/-! ### C2 — concurrency bound -/

/-- C2: in every reachable state of a session, at most climit tasks are in
the model-call phase, whatever the number of work items; the route's
configured concurrency limit is 10. -/
theorem concurrency_bound (S : Sess) (ac : Bool) (s : St)
    (hreach : Reach S ac s) :
    inCallCount s.phases ≤ S.climit ∧ CONCURRENCY_LIMIT = 10 :=
  ⟨(reach_inv hreach).hcap, rfl⟩

/-- Witness for C2 at the concrete one-question session. -/
theorem concurrency_bound_witness :
    inCallCount (initSt SW).phases ≤ SW.climit ∧ CONCURRENCY_LIMIT = 10 :=
  concurrency_bound SW true (initSt SW) Reach.init

/-- The concrete successful run of SW: admit the single task, resolve its
call, finish with the done event. -/
theorem reach_sWdone : Reach SW true sWdone :=
  Reach.step
    (Reach.step
      (Reach.step Reach.init (Step.admitTask _ 0 (by decide) (by decide)))
      (Step.resolve _ 0 (by decide)))
    (Step.finish _ (by decide) (by decide))

/-- The concrete rate-limited run of SF. -/
theorem reach_sFdone : Reach SF false sFdone :=
  Reach.step
    (Reach.step
      (Reach.step Reach.init (Step.admitTask _ 0 (by decide) (by decide)))
      (Step.resolve _ 0 (by decide)))
    (Step.finish _ (by decide) (by decide))

/-! ### C1 — completeness on success -/

/-- C1: for a schema whose question entries (second-level keys other than
assessment_guide) form the WorkItem set, if every call succeeds with
nonempty parsable content and the session terminates uncanceled, the
terminal done event carries the final ResultMap, which holds exactly one
QuestionResult per WorkItem under (unitCode, questionKey) and nothing
else. -/
theorem completeness_on_success (schema : Schema) (S : Sess) (s : St)
    (hitems : S.items = workItems schema)
    (hnodup : (S.items.map (fun it => (it.u, it.q))).Nodup)
    (hgood : ∀ i, i < S.items.length →
      (S.items.getD i defaultItem).hasBench = true ∧
      ∃ t, S.fate i = CallOutcome.ok t ∧ t ≠ "" ∧ (parseAi S.jp t).isSome = true)
    (hreach : Reach S true s) (hterm : s.terminated = true)
    (hnc : s.canceled = false) :
    s.evs.getLast? = some (JEv.doneEv s.results) ∧
    (∀ u q, (∃ r, ((u, q), r) ∈ s.results) ↔
      (u, q) ∈ (workItems schema).map (fun it => (it.u, it.q))) ∧
    (s.results.map Prod.fst).Nodup := by
  have inv := reach_inv hreach
  refine ⟨inv.htermDone hterm hnc, ?_, inv.hresNodup hnodup hnc⟩
  intro u q
  constructor
  · rintro ⟨r, hr⟩
    obtain ⟨j, hjfin, htr⟩ := (inv.hres hnc ((u, q), r)).mp hr
    obtain ⟨itj, hgj, hkey⟩ := taskResult_shape htr
    rw [← hitems, List.mem_map]
    refine ⟨itj, List.get?_mem hgj, ?_⟩
    exact hkey.symm
  · intro hmem
    rw [← hitems, List.mem_map] at hmem
    obtain ⟨it, hit, hkey⟩ := hmem
    obtain ⟨n, hn⟩ := List.mem_iff_get.mp hit
    have hgn : S.items.get? n = some it := by
      rw [List.get?_eq_get n.isLt, hn]
    have hfin : s.phases.get? n = some TPhase.finishedT := by
      have hnlt : (n : Nat) < s.phases.length := by
        rw [inv.hlen]
        exact n.isLt
      rw [List.get?_eq_get hnlt]
      congr 1
      exact inv.htermFin hterm _ (List.get_mem _ _ _)
    obtain ⟨hbench, t, hft, htne, hps⟩ := hgood n n.isLt
    have hito : itemOf S n = it := by
      unfold itemOf
      rw [List.getD_eq_get?, hgn]
      rfl
    obtain ⟨f, hpf⟩ := Option.isSome_iff_exists.mp hps
    have htb : (t == "") = false := by
      simp [htne]
    have hbench' : (itemOf S n).hasBench = true := by
      show (S.items.getD (n : Nat) defaultItem).hasBench = true
      exact hbench
    have htr : taskResult S n =
        some ((it.u, it.q), ⟨it.question, truthyOr f "No answer generated."⟩) := by
      rw [taskResult_eq_ins n.isLt hbench', hito, hft]
      unfold segResolve
      simp [htb, hpf]
    refine ⟨⟨it.question, truthyOr f "No answer generated."⟩, ?_⟩
    have hin := (inv.hres hnc _).mpr ⟨n, hfin, htr⟩
    have hkey' : (it.u, it.q) = (u, q) := hkey
    rw [← hkey']
    exact hin

/-- Witness for C1: the one-question session SW reaches done with exactly
its single work item in the ResultMap. -/
theorem completeness_on_success_witness :
    sWdone.evs.getLast? = some (JEv.doneEv sWdone.results) ∧
    (∀ u q, (∃ r, ((u, q), r) ∈ sWdone.results) ↔
      (u, q) ∈ (workItems schemaW).map (fun it => (it.u, it.q))) ∧
    (sWdone.results.map Prod.fst).Nodup := by
  apply completeness_on_success schemaW SW sWdone rfl (by decide) ?_ reach_sWdone
    (by decide) (by decide)
  intro i hi
  have hlen : SW.items.length = 1 := by decide
  have hi0 : i = 0 := by omega
  subst hi0
  exact ⟨by decide, "{x}", rfl, by decide, by decide⟩

/-! ### C3 — fatal short-circuit -/

/-- C3: in a session without external cancellation, if some work item with
benchMarkAns has a rate-limited model call and the run terminates, then
exactly one fatal error event was emitted, the session is canceled and the
channel closed, no done event exists, the fatal error is the last event,
and no processing event follows the fatal error. -/
theorem fatal_short_circuit (S : Sess) (s : St) (hreach : Reach S false s)
    (hterm : s.terminated = true) (i : Nat) (hi : i < S.items.length)
    (hbench : (S.items.getD i defaultItem).hasBench = true)
    (hrl : isRateLimitedOutcome (S.fate i) = true) :
    countFatal s.evs = 1 ∧ s.canceled = true ∧ s.closed = true ∧
    (∀ R, JEv.doneEv R ∉ s.evs) ∧
    (∃ u q m, s.evs.getLast? = some (JEv.errEv u q m true)) ∧
    (∀ l₁ e l₂, s.evs = l₁ ++ e :: l₂ → isFatalEv e = true →
      ∀ u q, JEv.processing u q ∉ l₂) := by
  have inv := reach_inv hreach
  have hfin : s.phases.get? i = some TPhase.finishedT := by
    have hlt : i < s.phases.length := by
      rw [inv.hlen]
      exact hi
    rw [List.get?_eq_get hlt]
    congr 1
    exact inv.htermFin hterm _ (List.get_mem _ _ _)
  have hfatal : hasFatal s.evs = true := inv.hfinRl rfl i hfin hbench hrl
  have hflags := inv.hfatalFlags hfatal
  have hcount1 : countFatal s.evs = 1 := by
    have hle := inv.hfatalCount
    have hge : 0 < countFatal s.evs := by
      rw [hasFatal, List.any_eq_true] at hfatal
      rw [countFatal]
      exact List.countP_pos.mpr hfatal
    omega
  refine ⟨hcount1, hflags.1, hflags.2, ?_, inv.hfatalLast hfatal, ?_⟩
  · intro R hr
    have := (inv.hdone R hr).2
    rw [hflags.1] at this
    cases this
  · intro l₁ e l₂ hsplit hef u q hpmem
    cases l₂ with
    | nil => cases hpmem
    | cons b bs =>
        obtain ⟨u', q', m', hlast⟩ := inv.hfatalLast hfatal
        have hlast2 : s.evs.getLast? = (b :: bs).getLast? := by
          rw [hsplit, List.getLast?_append, List.getLast?_cons_cons]
          cases hgl : (b :: bs).getLast? with
          | none => simp at hgl
          | some x => rfl
        have hmemlast : JEv.errEv u' q' m' true ∈ b :: bs := by
          apply mem_of_getLast?_eq
          rw [← hlast2]
          exact hlast
        have hcount2 : 2 ≤ countFatal s.evs := by
          rw [hsplit, countFatal_append]
          have h1 : 0 < countFatal (b :: bs) := by
            rw [countFatal]
            exact List.countP_pos.mpr ⟨_, hmemlast, by simp⟩
          have h2 : countFatal (e :: b :: bs) = countFatal (b :: bs) + 1 := by
            rw [show e :: b :: bs = [e] ++ b :: bs from rfl, countFatal_append]
            simp [countFatal, List.countP_cons, hef]
            omega
          omega
        omega

/-- Witness for C3: the concrete rate-limited session SF. -/
theorem fatal_short_circuit_witness :
    countFatal sFdone.evs = 1 ∧ sFdone.canceled = true ∧ sFdone.closed = true ∧
    (∀ R, JEv.doneEv R ∉ sFdone.evs) ∧
    (∃ u q m, sFdone.evs.getLast? = some (JEv.errEv u q m true)) ∧
    (∀ l₁ e l₂, sFdone.evs = l₁ ++ e :: l₂ → isFatalEv e = true →
      ∀ u q, JEv.processing u q ∉ l₂) :=
  fatal_short_circuit SF sFdone reach_sFdone (by decide) 0 (by decide) (by decide)
    (by decide)

/-! ### C6 — silent cancellation and unique terminal outcome -/

/-- C6: once a session is canceled, no step emits any further event (tasks
observing cancellation terminate silently); a terminated session has a
closed channel; a canceled terminated session has no done event; an
uncanceled terminated session ends with the single done event carrying its
results; and at most one done event ever exists. -/
theorem cancellation_silent_close (S : Sess) (s : St) (hreach : Reach S true s) :
    (s.canceled = true → ∀ s', Step S true s s' → s'.evs = s.evs) ∧
    (s.terminated = true → s.closed = true ∧
      (s.canceled = true → ∀ R, JEv.doneEv R ∉ s.evs) ∧
      (s.canceled = false →
        s.evs.getLast? = some (JEv.doneEv s.results) ∧ countDone s.evs = 1)) ∧
    countDone s.evs ≤ 1 := by
  have inv := reach_inv hreach
  refine ⟨fun hc s' st => step_silent hc st, ?_, inv.hdoneCount⟩
  intro hterm
  refine ⟨inv.htermClosed hterm, ?_, ?_⟩
  · intro hc R hr
    have := (inv.hdone R hr).2
    rw [hc] at this
    cases this
  · intro hnc
    have hlast := inv.htermDone hterm hnc
    refine ⟨hlast, ?_⟩
    have hmem : JEv.doneEv s.results ∈ s.evs := mem_of_getLast?_eq hlast
    have hge : 0 < countDone s.evs := by
      rw [countDone]
      exact List.countP_pos.mpr ⟨_, hmem, by simp⟩
    have := inv.hdoneCount
    omega

/-- Witness for C6: the completed run of SW is closed with exactly its one
done event as last event. -/
theorem cancellation_silent_close_witness :
    sWdone.closed = true ∧
    sWdone.evs.getLast? = some (JEv.doneEv sWdone.results) ∧
    countDone sWdone.evs = 1 := by
  obtain ⟨-, h2, -⟩ := cancellation_silent_close SW sWdone reach_sWdone
  obtain ⟨hcl, -, h3⟩ := h2 (by decide)
  obtain ⟨ha, hb⟩ := h3 (by decide)
  exact ⟨hcl, ha, hb⟩

end GMC
